import Mathlib

/-!
Verification development for the NTSC-CRT repository (LMP88959/NTSC-CRT).

The definitions below are a shallow embedding of the C sources `crt.c`,
`crt_nes.c` and `crt_sincos.c`, at the compile-time configuration fixed by
`crt.h`: CRT_NES_MODE = 0, CRT_NES_HIRES = 1, CRT_DO_BLOOM = 0,
CRT_DO_VSYNC = 1, CRT_DO_HSYNC = 1, CRT_CHROMA_PATTERN = 1.

Machine integers are modelled as ℤ:
 - C `/` and `%` on int are truncating division / remainder, `Int.tdiv` and
   `Int.tmod` (written `cdiv` / `cmod` below);
 - C `>>` on a signed int is an arithmetic shift, i.e. floor division by a
   power of two; since the divisor is positive, ℤ division (`Int.ediv`, the
   `/` of ℤ) is exactly that floor division (`asr` below);
 - `x & m` for a mask `m = 2^k - 1` on a two's-complement int is `x % 2^k`
   (Euclidean mod), and `x & ~3` clears the low two bits;
 - a store into a `signed char` narrows two's-complement-wise into
   [-128, 127] (`sc` below);
 - the 32-bit LCG state of the noise generator is kept as a natural number
   below 2^32 holding its two's-complement bit pattern.

Signal buffers are total functions ℕ → ℤ; reads of the decoder go through
`sigRead`, which returns an `Option` that is `none` exactly on an
out-of-bounds index.
-/

set_option maxRecDepth 4000000

/-! ### Compile-time constants (crt.h / crt.c) -/

def CRT_CB_FREQ : ℕ := 4
def CRT_CC_LINE : ℕ := 2275
def CRT_HRES : ℕ := CRT_CC_LINE * CRT_CB_FREQ / 10
def CRT_VRES : ℕ := 262
def CRT_INPUT_SIZE : ℕ := CRT_HRES * CRT_VRES
def CRT_TOP : ℕ := 21
def CRT_BOT : ℕ := 261
def CRT_LINES : ℕ := CRT_BOT - CRT_TOP

def LINE_ns : ℕ := 1500 + 4700 + 600 + 2500 + 1600 + 52600

/-- `ns2pos(ns) = ns * CRT_HRES / LINE_ns` (crt.c). -/
def ns2pos (ns : ℕ) : ℕ := ns * CRT_HRES / LINE_ns

def SYNC_BEG : ℕ := ns2pos 1500
def BW_BEG : ℕ := ns2pos (1500 + 4700)
def CB_BEG : ℕ := ns2pos (1500 + 4700 + 600)
def BP_BEG : ℕ := ns2pos (1500 + 4700 + 600 + 2500)
def AV_BEG : ℕ := ns2pos (1500 + 4700 + 600 + 2500 + 1600)
def AV_LEN : ℕ := ns2pos 52600
def CB_CYCLES : ℕ := 10

def WHITE_LEVEL : ℤ := 100
def BURST_LEVEL : ℤ := 20
def BLACK_LEVEL : ℤ := 7
def BLANK_LEVEL : ℤ := 0
def SYNC_LEVEL : ℤ := -40

example : CRT_HRES = 910 := by decide
example : CRT_INPUT_SIZE = 238420 := by decide
example : SYNC_BEG = 21 ∧ BW_BEG = 88 ∧ CB_BEG = 97 ∧ BP_BEG = 133 ∧
    AV_BEG = 156 ∧ AV_LEN = 753 := by decide

/-! ### C arithmetic on ℤ -/

/-- C division of two ints truncates toward zero. -/
def cdiv (a b : ℤ) : ℤ := Int.tdiv a b

/-- C remainder of two ints (sign of the dividend). -/
def cmod (a b : ℤ) : ℤ := Int.tmod a b

/-- Arithmetic shift right (C `>>` on a signed value, floor division). -/
def asr (a : ℤ) (k : ℕ) : ℤ := a / (2 ^ k : ℤ)

/-- `POSMOD(x, n) = ((x % n + n) % n)` from crt.c, with C `%`. -/
def posmod (x n : ℤ) : ℤ := cmod (cmod x n + n) n

/-- `x & ~3` on a two's-complement int: clear the two low bits. -/
def alignTo4 (x : ℤ) : ℤ := x - x % 4

/-- int → `signed char` conversion (two's-complement narrowing). -/
def sc (x : ℤ) : ℤ := (x + 128) % 256 - 128

theorem asr_mono {x y : ℤ} (k : ℕ) (h : x ≤ y) : asr x k ≤ asr y k :=
  Int.ediv_le_ediv (by positivity) h

theorem asr_zero (k : ℕ) : asr 0 k = 0 := by
  simp [asr]

theorem sc_range (x : ℤ) : -128 ≤ sc x ∧ sc x ≤ 127 := by
  unfold sc
  have h1 : 0 ≤ (x + 128) % 256 := Int.emod_nonneg _ (by norm_num)
  have h2 : (x + 128) % 256 < 256 := Int.emod_lt_of_pos _ (by norm_num)
  omega

theorem sc_eq_of_range (x : ℤ) (h1 : -128 ≤ x) (h2 : x ≤ 127) : sc x = x := by
  unfold sc
  rw [Int.emod_eq_of_lt (by omega) (by omega)]
  omega

theorem posmod_eq_emod (x n : ℤ) (hn : 0 < n) : posmod x n = x % n := by
  unfold posmod cmod
  rcases le_or_lt 0 x with hx | hx
  · have h1 : 0 ≤ x % n := Int.emod_nonneg _ (by omega)
    rw [Int.tmod_eq_emod hx hn.le, Int.tmod_eq_emod (by omega) hn.le]
    rw [show x % n + n = x % n + n * 1 by ring]
    rw [Int.add_mul_emod_self_left, Int.emod_emod_of_dvd _ dvd_rfl]
  · have e0 : Int.tmod (-x) n = (-x) % n := Int.tmod_eq_emod (by omega) hn.le
    have d2 : Int.tmod (-x) n = -x + n * x.tdiv n := by
      rw [Int.tmod_def, Int.neg_tdiv]
      ring
    have e1 : Int.tmod x n = -((-x) % n) := by
      rw [e0] at d2
      rw [Int.tmod_def, d2]
      ring
    have h1 : 0 ≤ (-x) % n := Int.emod_nonneg _ (by omega)
    have h2 : (-x) % n < n := Int.emod_lt_of_pos _ hn
    rw [e1, Int.tmod_eq_emod (by omega) hn.le]
    have e2 : (-x) % n = -x - n * (-x / n) := Int.emod_def _ _
    have e3 : -((-x) % n) + n = x + n * (-x / n + 1) := by
      rw [e2]
      ring
    rw [e3, Int.add_mul_emod_self_left]

theorem posmod_bounds (x n : ℤ) (hn : 0 < n) : 0 ≤ posmod x n ∧ posmod x n < n := by
  rw [posmod_eq_emod x n hn]
  exact ⟨Int.emod_nonneg _ (by omega), Int.emod_lt_of_pos _ hn⟩

/-! ### Fixed-point sine/cosine (crt_sincos.c, identical copies in crt.c and crt_nes.c) -/

def sigpsin15 : List ℤ :=
  [0x0000,
   0x0c88, 0x18f8, 0x2528, 0x30f8, 0x3c50, 0x4718, 0x5130, 0x5a80,
   0x62f0, 0x6a68, 0x70e0, 0x7640, 0x7a78, 0x7d88, 0x7f60, 0x8000,
   0x7f60]

/-- `sintabil8` from crt_sincos.c: `f = n & 0xff`, `i = (n >> 8) & 0xff`,
    linear interpolation between consecutive table entries. -/
def sintabil8 (n : ℕ) : ℤ :=
  let f : ℕ := n % 256
  let i : ℕ := (n >>> 8) % 256
  let a := sigpsin15.getD i 0
  let b := sigpsin15.getD (i + 1) 0
  a + asr ((b - a) * (f : ℤ)) 8

/-- `crt_sincos14` from crt_sincos.c: 14-bit angle (16384 = 2π), quarter-wave
    lookup; returns (sin, cos). `n &= T14_MASK` on a two's-complement int is
    `n % 16384`. -/
def crt_sincos14 (n : ℤ) : ℤ × ℤ :=
  let nn : ℕ := (n % 16384).toNat
  let h : ℕ := nn % 8192
  let sv : ℤ := if h > 4095 then sintabil8 (8192 - h) else sintabil8 h
  let cv : ℤ := if h > 4095 then -sintabil8 (h - 4096) else sintabil8 (4096 - h)
  if nn > 8191 then (-sv, -cv) else (sv, cv)

theorem sigpsin15_getD_mono : ∀ i : ℕ, i < 16 →
    sigpsin15.getD i 0 ≤ sigpsin15.getD (i + 1) 0 := by decide

theorem sintabil8_eq (n : ℕ) : sintabil8 n =
    sigpsin15.getD ((n >>> 8) % 256) 0 +
      asr ((sigpsin15.getD ((n >>> 8) % 256 + 1) 0 -
            sigpsin15.getD ((n >>> 8) % 256) 0) * ((n % 256 : ℕ) : ℤ)) 8 := rfl

theorem shiftRight8_small (n : ℕ) (h : n < 65536) : (n >>> 8) % 256 = n / 256 := by
  rw [Nat.shiftRight_eq_div_pow]
  norm_num
  omega

theorem sintabil8_le_succ (n : ℕ) (h : n < 4096) : sintabil8 n ≤ sintabil8 (n + 1) := by
  have hd : sigpsin15.getD (n / 256) 0 ≤ sigpsin15.getD (n / 256 + 1) 0 :=
    sigpsin15_getD_mono _ (by omega)
  rw [sintabil8_eq, sintabil8_eq, shiftRight8_small n (by omega),
      shiftRight8_small (n + 1) (by omega)]
  rcases Nat.lt_or_ge (n % 256) 255 with hf | hf
  · have e1 : (n + 1) / 256 = n / 256 := by omega
    have e2 : (n + 1) % 256 = n % 256 + 1 := by omega
    rw [e1, e2]
    have hmul : (sigpsin15.getD (n / 256 + 1) 0 - sigpsin15.getD (n / 256) 0) *
        ((n % 256 : ℕ) : ℤ) ≤
        (sigpsin15.getD (n / 256 + 1) 0 - sigpsin15.getD (n / 256) 0) *
        ((n % 256 + 1 : ℕ) : ℤ) := by
      apply mul_le_mul_of_nonneg_left _ (by omega)
      push_cast
      all_goals omega
    have := asr_mono 8 hmul
    omega
  · have hf255 : n % 256 = 255 := by omega
    have e1 : (n + 1) / 256 = n / 256 + 1 := by omega
    have e2 : (n + 1) % 256 = 0 := by omega
    rw [e1, e2, hf255]
    set a := sigpsin15.getD (n / 256) 0 with ha
    set b := sigpsin15.getD (n / 256 + 1) 0 with hb
    have h1 : asr ((b - a) * ((255 : ℕ) : ℤ)) 8 ≤ b - a := by
      have h2 : (b - a) * ((255 : ℕ) : ℤ) ≤ (b - a) * 256 := by
        apply mul_le_mul_of_nonneg_left _ (by omega)
        push_cast
        all_goals omega
      have h3 : asr ((b - a) * 256) 8 = b - a := by
        unfold asr
        rw [show (2:ℤ) ^ 8 = 256 by norm_num, Int.mul_ediv_cancel _ (by norm_num)]
      calc asr ((b - a) * ((255 : ℕ) : ℤ)) 8 ≤ asr ((b - a) * 256) 8 := asr_mono 8 h2
        _ = b - a := h3
    have h0 : asr ((sigpsin15.getD (n / 256 + 1 + 1) 0 - b) * ((0 : ℕ) : ℤ)) 8 = 0 := by
      simp [asr]
    omega

theorem sintabil8_mono (m n : ℕ) (hmn : m ≤ n) (hn : n ≤ 4096) :
    sintabil8 m ≤ sintabil8 n := by
  induction n with
  | zero =>
    have : m = 0 := by omega
    simp [this]
  | succ k ih =>
    rcases Nat.lt_or_ge m (k + 1) with h | h
    · exact le_trans (ih (by omega) (by omega)) (sintabil8_le_succ k (by omega))
    · have : m = k + 1 := by omega
      simp [this]

theorem sincos14_eval_low (n : ℤ) (h0 : 0 ≤ n) (h1 : n ≤ 4095) :
    crt_sincos14 n = (sintabil8 n.toNat, sintabil8 (4096 - n.toNat)) := by
  have e1 : n % 16384 = n := Int.emod_eq_of_lt h0 (by omega)
  have e2 : n.toNat % 8192 = n.toNat := Nat.mod_eq_of_lt (by omega)
  have c1 : ¬ (n.toNat > 4095) := by omega
  have c2 : ¬ (n.toNat > 8191) := by omega
  simp [crt_sincos14, e1, e2, c1, c2]

/-- Claim C10 (as stated, refuted): strict monotonicity of the sin output
    within the first quarter fails: angles 3840 and 3841 lie in [0, 4096)
    but `crt_sincos14` returns the same sin value for both (the last table
    segment rises by only 160 < 256 per 256 steps, so the interpolation
    repeats values). -/
theorem c10_counterexample :
    (0:ℤ) ≤ 3840 ∧ (3840:ℤ) < 3841 ∧ (3841:ℤ) < 4096 ∧
    (crt_sincos14 3840).1 = (crt_sincos14 3841).1 ∧
    ¬ ((crt_sincos14 3840).1 < (crt_sincos14 3841).1) := by decide

/-- Claim C10 (amended): within the quarter [0, 4096) the sin output of
    `crt_sincos14` is monotone non-decreasing (not strictly increasing), and
    symmetrically the cos output is monotone non-increasing there. -/
theorem c10_sincos14_monotone (n1 n2 : ℤ) (h0 : 0 ≤ n1) (h12 : n1 ≤ n2) (h2 : n2 ≤ 4095) :
    (crt_sincos14 n1).1 ≤ (crt_sincos14 n2).1 ∧
    (crt_sincos14 n2).2 ≤ (crt_sincos14 n1).2 := by
  rw [sincos14_eval_low n1 h0 (by omega), sincos14_eval_low n2 (by omega) h2]
  refine ⟨sintabil8_mono _ _ (by omega) (by omega), sintabil8_mono _ _ (by omega) (by omega)⟩

/-- Witness for `c10_sincos14_monotone` at angles 100 ≤ 200. -/
theorem c10_sincos14_monotone_witness :
    (0:ℤ) ≤ 100 ∧ (100:ℤ) ≤ 200 ∧ (200:ℤ) ≤ 4095 ∧
    ((crt_sincos14 100).1 ≤ (crt_sincos14 200).1 ∧
     (crt_sincos14 200).2 ≤ (crt_sincos14 100).2) :=
  ⟨by decide, by decide, by decide, c10_sincos14_monotone 100 200 (by decide) (by decide) (by decide)⟩

/-! ### Fixed-point exponential (crt.c `expx`) and IIR low-pass filters -/

def EXP_ONE : ℤ := 2048
def EXP_PI : ℤ := 6434

def e11 : List ℤ := [2048, 5567, 15133, 41135, 111817]

/-- Taylor-series loop of `expx` (crt.c): `for (i = 1; i < 17; i++)` with
    `acc += nxt/del; nxt = EXP_MUL(nxt, n); del *= i;` and the early exit
    `if (del > nxt || nxt <= 0 || del <= 0) break;` taken after the updates.
    `EXP_MUL(x,y) = (x*y) >> 11`. -/
def expxSeries (n : ℤ) : (cnt : ℕ) → (i nxt acc del : ℤ) → ℤ
  | 0, _, _, acc, _ => acc
  | cnt + 1, i, nxt, acc, del =>
    let acc' := acc + cdiv nxt del
    let nxt' := asr (nxt * n) 11
    let del' := del * i
    if del' > nxt' ∨ nxt' ≤ 0 ∨ del' ≤ 0 then acc'
    else expxSeries n cnt (i + 1) nxt' acc' del'

/-- `for (i = 0; i < idx / 4; i++) res = EXP_MUL(res, e11[4]);` from `expx`. -/
def expxPowLoop : (cnt : ℕ) → ℤ → ℤ
  | 0, res => res
  | cnt + 1, res => expxPowLoop cnt (asr (res * 111817) 11)

/-- `expx` from crt.c: 11-bit fixed point e^n.  `n >> EXP_P` on the
    (now nonnegative) argument is `asr`, `idx &= 3` is `% 4`, `n &= EXP_MASK`
    is `% 2048`, and `EXP_DIV(EXP_ONE, res) = (EXP_ONE << 11) / res`. -/
def expx (n : ℤ) : ℤ :=
  if n = 0 then EXP_ONE
  else
    let m := if n < 0 then -n else n
    let idx := asr m 11
    let res0 := expxPowLoop (cdiv idx 4).toNat EXP_ONE
    let idx' := idx % 4
    let res1 := if idx' > 0 then asr (res0 * e11.getD idx'.toNat 0) 11 else res0
    let acc := expxSeries (m % 2048) 16 1 EXP_ONE 0 1
    let res2 := asr (res1 * acc) 11
    if n < 0 then cdiv (EXP_ONE * 2048) res2 else res2

/-- `struct IIRLP` from crt.c. -/
structure IIRLP where
  c : ℤ
  h : ℤ

/-- `init_iir` from crt.c: `rate = (freq << 9) / limit;
    f->c = EXP_ONE - expx(-((EXP_PI << 9) / rate));` with zeroed history. -/
def init_iir (freq limit : ℤ) : IIRLP :=
  ⟨EXP_ONE - expx (-(cdiv (EXP_PI * 512) (cdiv (freq * 512) limit))), 0⟩

/-- The three IIR instances installed by `crt_init` (module statics in crt.c).
    `reset_iir` only zeroes the history, so a freshly reset filter equals
    these records. -/
def iirY : IIRLP := init_iir 1431818 420000

def iirI : IIRLP := init_iir 1431818 150000

def iirQ : IIRLP := init_iir 1431818 55000

/-- `iirf` from crt.c (HIPASS = 0): `f->h += EXP_MUL(s - f->h, f->c);
    return f->h;` -/
def iirf (f : IIRLP) (s : ℤ) : IIRLP × ℤ :=
  let hv := f.h + asr ((s - f.h) * f.c) 11
  (⟨f.c, hv⟩, hv)

/-! ### Three-band equalizer (crt.c `struct EQF`, `init_eq`, `eqf`)
    The C arrays `fL[4]`, `fH[4]`, `h[HISTLEN=3]` are flattened into named
    fields. EQ_P = 16, EQ_R = 1 << 15. -/

structure EQF where
  lf : ℤ
  hf : ℤ
  g0 : ℤ
  g1 : ℤ
  g2 : ℤ
  fL0 : ℤ
  fL1 : ℤ
  fL2 : ℤ
  fL3 : ℤ
  fH0 : ℤ
  fH1 : ℤ
  fH2 : ℤ
  fH3 : ℤ
  h0 : ℤ
  h1 : ℤ
  h2 : ℤ

def EQ_R : ℤ := 32768

/-- `kHz2L(kHz) = CRT_HRES * (kHz * 100) / L_FREQ` from `crt_init`. -/
def kHz2L (kHz : ℤ) : ℤ := cdiv (910 * (kHz * 100)) 1431818

/-- `init_eq` from crt.c; since EQ_P = 16 ≥ 15 the coefficients are
    `2 * (sn << 1)`.  All filter state starts zeroed; `reset_eq` re-zeroes
    exactly that state, so a freshly reset filter equals these records. -/
def init_eq (f_lo f_hi rate g_lo g_mid g_hi : ℤ) : EQF :=
  ⟨2 * ((crt_sincos14 (cdiv (8192 * f_lo) rate)).1 * 2),
   2 * ((crt_sincos14 (cdiv (8192 * f_hi) rate)).1 * 2),
   g_lo, g_mid, g_hi,
   0, 0, 0, 0, 0, 0, 0, 0, 0, 0, 0⟩

def eqY : EQF := init_eq (kHz2L 1500) (kHz2L 3000) 910 65536 8192 9175

def eqI : EQF := init_eq (kHz2L 80) (kHz2L 1150) 910 65536 65536 1311

def eqQ : EQF := init_eq (kHz2L 80) (kHz2L 1000) 910 65536 65536 0

/-- `eqf` from crt.c with the two 4-stage one-pole cascades unrolled;
    band outputs are taken as in the source (`r[2]` uses the oldest history
    entry before the shift), and the history shifts down with `s` newest. -/
def eqf (f : EQF) (s : ℤ) : EQF × ℤ :=
  let fL0 := f.fL0 + asr (f.lf * (s - f.fL0) + EQ_R) 16
  let fH0 := f.fH0 + asr (f.hf * (s - f.fH0) + EQ_R) 16
  let fL1 := f.fL1 + asr (f.lf * (fL0 - f.fL1) + EQ_R) 16
  let fH1 := f.fH1 + asr (f.hf * (fH0 - f.fH1) + EQ_R) 16
  let fL2 := f.fL2 + asr (f.lf * (fL1 - f.fL2) + EQ_R) 16
  let fH2 := f.fH2 + asr (f.hf * (fH1 - f.fH2) + EQ_R) 16
  let fL3 := f.fL3 + asr (f.lf * (fL2 - f.fL3) + EQ_R) 16
  let fH3 := f.fH3 + asr (f.hf * (fH2 - f.fH3) + EQ_R) 16
  let r0 := asr (fL3 * f.g0) 16
  let r1 := asr ((fH3 - fL3) * f.g1) 16
  let r2 := asr ((f.h2 - fH3) * f.g2) 16
  (⟨f.lf, f.hf, f.g0, f.g1, f.g2, fL0, fL1, fL2, fL3, fH0, fH1, fH2, fH3,
    s, f.h0, f.h1⟩,
   r0 + r1 + r2)

/-! ### Palette square-wave sampler (crt_nes.c `IRE_levels`, `square_sample`) -/

/-- `IRE_levels[2][2][0x40]` from crt_nes.c:
    `IRE_levels[level][emphasis][pixel_index]`, level 0 = waveform low,
    level 1 = waveform high; emphasis 0 = normal, 1 = attenuated. -/
def IRE_levels : List (List (List ℤ)) :=
  [[[43, -12, -12, -12, -12, -12, -12, -12, -12, -12, -12, -12, -12, -12, 0, 0,
     74, 0, 0, 0, 0, 0, 0, 0, 0, 0, 0, 0, 0, 0, 0, 0,
     110, 34, 34, 34, 34, 34, 34, 34, 34, 34, 34, 34, 34, 34, 0, 0,
     110, 80, 80, 80, 80, 80, 80, 80, 80, 80, 80, 80, 80, 80, 0, 0],
    [26, -17, -17, -17, -17, -17, -17, -17, -17, -17, -17, -17, -17, -17, 0, 0,
     51, -8, -8, -8, -8, -8, -8, -8, -8, -8, -8, -8, -8, -8, 0, 0,
     82, 19, 19, 19, 19, 19, 19, 19, 19, 19, 19, 19, 19, 19, 0, 0,
     82, 56, 56, 56, 56, 56, 56, 56, 56, 56, 56, 56, 56, 56, 0, 0]],
   [[43, 43, 43, 43, 43, 43, 43, 43, 43, 43, 43, 43, 43, -12, 0, 0,
     74, 74, 74, 74, 74, 74, 74, 74, 74, 74, 74, 74, 74, 0, 0, 0,
     110, 110, 110, 110, 110, 110, 110, 110, 110, 110, 110, 110, 110, 34, 0, 0,
     110, 110, 110, 110, 110, 110, 110, 110, 110, 110, 110, 110, 110, 80, 0, 0],
    [26, 26, 26, 26, 26, 26, 26, 26, 26, 26, 26, 26, 26, -17, 0, 0,
     51, 51, 51, 51, 51, 51, 51, 51, 51, 51, 51, 51, 51, -8, 0, 0,
     82, 82, 82, 82, 82, 82, 82, 82, 82, 82, 82, 82, 82, 19, 0, 0,
     82, 82, 82, 82, 82, 82, 82, 82, 82, 82, 82, 82, 82, 56, 0, 0]]]

/-- `IRE_levels[lvl][emph][idx]`. -/
def ireLevel (lvl emph idx : ℕ) : ℤ :=
  ((IRE_levels.getD lvl []).getD emph []).getD idx 0

/-- `static int active[6]` from `square_sample` in crt_nes.c. -/
def nes_active : List ℕ := [0x0C0, 0x040, 0x140, 0x100, 0x180, 0x080]

/-- `square_sample` from crt_nes.c (the table-driven variant):
    `pixel_index = p & 0x3F`, `hue = pixel_index & 0x0F`; hues ≥ 0x0E return
    0; hue 0 is always in the high half, hue 0x0D always low, otherwise
    `level = ((hue + phase) % 12) < 6`; emphasis when
    `(p & 0x1C0) & active[(phase >> 1) % 6]` is nonzero (and hue < 0x0E). -/
def square_sample (pixel_color phase : ℕ) : ℤ :=
  let pixel_index := pixel_color &&& 0x3F
  let hue := pixel_index &&& 0x0F
  if hue ≥ 0x0E then 0
  else
    let level : ℕ :=
      if hue = 0 then 1
      else if hue = 0x0D then 0
      else if (hue + phase) % 12 < 6 then 1 else 0
    let emphasis : ℕ :=
      if (pixel_color &&& 0x1C0) &&& nes_active.getD ((phase >>> 1) % 6) 0 ≠ 0 ∧
          hue < 0x0E then 1 else 0
    ireLevel level emphasis pixel_index

/-- Modelled from the spec (§4.4, claim C6): the claimed closed form
    `IRE_levels[high][attenuated][p & 0x3F]` with
    `high = (((p & 0xF) + phase) mod 12) < 6` and
    `attenuated = ((p & 0x1C0) & active[(phase >> 1) mod 6]) ≠ 0`. -/
def square_sample_spec (p phase : ℕ) : ℤ :=
  let hue := p &&& 0xF
  let high : ℕ := if (hue + phase) % 12 < 6 then 1 else 0
  let att : ℕ :=
    if (p &&& 0x1C0) &&& nes_active.getD ((phase >>> 1) % 6) 0 ≠ 0 then 1 else 0
  ireLevel high att (p &&& 0x3F)

theorem nat_and_511 (p : ℕ) : p &&& 511 = p % 512 := by
  have := Nat.and_pow_two_sub_one_eq_mod p 9
  norm_num at this
  exact this

theorem nat_and_63_mod (p : ℕ) : p % 512 &&& 63 = p &&& 63 := by
  rw [← nat_and_511, Nat.and_assoc, show (511 : ℕ) &&& 63 = 63 by decide]

theorem nat_and_448_mod (p : ℕ) : p % 512 &&& 448 = p &&& 448 := by
  rw [← nat_and_511, Nat.and_assoc, show (511 : ℕ) &&& 448 = 448 by decide]

theorem shr1_mod12 (phase : ℕ) : ((phase % 12) >>> 1) % 6 = (phase >>> 1) % 6 := by
  rw [Nat.shiftRight_eq_div_pow, Nat.shiftRight_eq_div_pow, pow_one]
  omega

theorem square_sample_reduce (p phase : ℕ) :
    square_sample (p % 512) (phase % 12) = square_sample p phase := by
  have e3 : ∀ hue : ℕ, (hue + phase % 12) % 12 = (hue + phase) % 12 := by
    intro hue
    omega
  simp only [square_sample, nat_and_63_mod, nat_and_448_mod, shr1_mod12, e3]

theorem square_sample_spec_reduce (p phase : ℕ) :
    square_sample_spec (p % 512) (phase % 12) = square_sample_spec p phase := by
  have e3 : ∀ hue : ℕ, (hue + phase % 12) % 12 = (hue + phase) % 12 := by
    intro hue
    omega
  have e15 : p % 512 &&& 15 = p &&& 15 := by
    rw [← nat_and_511, Nat.and_assoc, show (511 : ℕ) &&& 15 = 15 by decide]
  simp only [square_sample_spec, nat_and_63_mod, nat_and_448_mod, shr1_mod12, e3, e15]

theorem square_sample_eq_spec_small : ∀ p : ℕ, p < 512 → ∀ r : ℕ, r < 12 →
    square_sample p r = square_sample_spec p r := by decide

/-- Claim C6: for every palette pixel p and phase, the table-driven
    `square_sample(p, phase)` of crt_nes.c returns
    `IRE_levels[high][attenuated][p & 0x3F]` with `hue = p & 0xF`,
    `high = ((hue + phase) mod 12) < 6` and
    `attenuated = ((p & 0x1C0) & active[(phase >> 1) mod 6]) ≠ 0`,
    where `active = {0x0C0, 0x040, 0x140, 0x100, 0x180, 0x080}`.
    (The special cases hue = 0, hue = 0xD and hue ≥ 0xE in the code coincide
    with the table lookups because the corresponding table columns are
    constant across the low/high waveform halves.) -/
theorem c6_square_sample_table (p phase : ℕ) :
    square_sample p phase = square_sample_spec p phase := by
  rw [← square_sample_reduce, ← square_sample_spec_reduce]
  exact square_sample_eq_spec_small _ (Nat.mod_lt _ (by norm_num)) _
    (Nat.mod_lt _ (by norm_num))

/-! ### Color-burst accumulator (crt.c `crt_draw`, claim C5) -/

/-- One color-burst reference update from crt_draw (crt.c):
    `p = ccref[i & 3] * 127 / 128; n = sig[i]; ccref[i & 3] = p + n;` -/
def ccrefStep (c n : ℤ) : ℤ := cdiv (c * 127) 128 + n

/-- Modelled from the spec (§3 invariants, claim C5): the claimed update
    `ccref[k] ← (127·ccref[k] + sample) / 128`. -/
def ccrefStepSpec (c n : ℤ) : ℤ := cdiv (127 * c + n) 128

/-- Claim C5 (as stated, refuted): the spec formula divides the incoming
    sample by 128 as well; the code adds the sample at full weight.  At
    `ccref[k] = 0`, `sample = 1` the code stores 1 while the claimed update
    yields 0. -/
theorem c5_counterexample :
    ccrefStep 0 1 = 1 ∧ ccrefStepSpec 0 1 = 0 ∧ ccrefStep 0 1 ≠ ccrefStepSpec 0 1 := by
  decide


/-! ### Engine state and encoder settings (crt.h `struct CRT`, `struct NTSC_SETTINGS`) -/

/-- `struct CRT` from crt.h.  The two signal buffers are total functions;
    the C arrays cover indices [0, CRT_INPUT_SIZE). -/
structure CRT where
  analog : ℕ → ℤ
  inp : ℕ → ℤ
  hsync : ℤ
  vsync : ℤ
  hue : ℤ
  brightness : ℤ
  contrast : ℤ
  saturation : ℤ
  black_point : ℤ
  white_point : ℤ
  outw : ℤ
  outh : ℤ
  out : ℕ → ℤ

/-- `struct NTSC_SETTINGS` from crt.h; `rgb` is the caller-owned pixel
    memory (reads outside the image read arbitrary caller memory, hence a
    total function on ℤ). `cc` is indexed with `& 3` only. -/
structure NTSC_SETTINGS where
  rgb : ℤ → ℤ
  w : ℤ
  h : ℤ
  raw : ℤ
  as_color : ℤ
  field : ℤ
  cc : ℕ → ℤ
  ccs : ℤ

/-- Pointwise buffer update (one array store). -/
def updN (f : ℕ → ℤ) (k : ℕ) (z : ℤ) : ℕ → ℤ := fun j => if j = k then z else f j

/-! ### Encoder `crt_2ntsc` (crt.c, CRT_DO_BLOOM = 0) -/

/-- `(CRT_LINES * 64500) >> 16` — the destination-height cap. -/
def encDesthMax : ℤ := asr (240 * 64500) 16

/-- `destw` after the `raw` clamping in crt_2ntsc (default AV_LEN). -/
def destwOf (s : NTSC_SETTINGS) : ℤ :=
  if s.raw ≠ 0 then (if s.w > 753 then 753 else s.w) else 753

/-- `desth` after the `raw` clamping in crt_2ntsc (default 236). -/
def desthOf (s : NTSC_SETTINGS) : ℤ :=
  if s.raw ≠ 0 then (if s.h > encDesthMax then encDesthMax else s.h) else encDesthMax

/-- `xo = AV_BEG + 4 + (AV_LEN - destw) / 2`, then `xo &= ~3`. -/
def xoOf (s : NTSC_SETTINGS) : ℤ := alignTo4 (156 + 4 + cdiv (753 - destwOf s) 2)

/-- `yo = CRT_TOP + 4 + (CRT_LINES - desth) / 2`. -/
def yoOf (s : NTSC_SETTINGS) : ℤ := 21 + 4 + cdiv (240 - desthOf s) 2

/-- The clamp `if (ire < 0) ire = 0; if (ire > 110) ire = 110;`. -/
def clampIre (ire : ℤ) : ℤ := if ire < 0 then 0 else if ire > 110 then 110 else ire

/-- Equalizing-pulse line pattern (lines 0..3 and 7..9): the four while
    loops write SYNC to 4%, BLANK to 50%, SYNC to 54%, BLANK to 100% of
    CRT_HRES; this closed form gives the value each cell holds afterwards. -/
def equalizing (t : ℕ) : ℤ :=
  if t < 4 * CRT_HRES / 100 then SYNC_LEVEL
  else if t < 50 * CRT_HRES / 100 then BLANK_LEVEL
  else if t < 54 * CRT_HRES / 100 then SYNC_LEVEL
  else BLANK_LEVEL

/-- Vertical-serration line pattern (lines 4..6), breakpoints
    {46,50,96,100}% (even field) or {4,50,96,100}% (odd field). -/
def serration (fieldv : ℤ) (t : ℕ) : ℤ :=
  if t < (if fieldv = 1 then 4 else 46) * CRT_HRES / 100 then SYNC_LEVEL
  else if t < 50 * CRT_HRES / 100 then BLANK_LEVEL
  else if t < 96 * CRT_HRES / 100 then SYNC_LEVEL
  else BLANK_LEVEL

/-- The color-burst sample value `BLANK_LEVEL + (s->cc[t & 3] * BURST_LEVEL)
    / s->ccs` computed by the burst loop of crt_2ntsc before the store
    narrows it to `signed char`. -/
def burstVal (s : NTSC_SETTINGS) (t : ℕ) : ℤ :=
  BLANK_LEVEL + cdiv (s.cc (t % 4) * BURST_LEVEL) s.ccs

/-- Ordinary video line pattern (lines ≥ 10): blank front porch, sync tip,
    blank through the back porch; fully blank before CRT_TOP; the color
    burst loop overwrites `[CB_BEG, CB_BEG + CB_CYCLES*CRT_CB_FREQ)` last
    when `as_color` is set, so that region is checked first here.  Cells the
    loops never reach keep `orig`. -/
def videoLine (s : NTSC_SETTINGS) (n t : ℕ) (orig : ℤ) : ℤ :=
  if s.as_color ≠ 0 ∧ CB_BEG ≤ t ∧ t < CB_BEG + CB_CYCLES * CRT_CB_FREQ then
    sc (burstVal s t)
  else if t < SYNC_BEG then BLANK_LEVEL
  else if t < BW_BEG then SYNC_LEVEL
  else if t < AV_BEG then BLANK_LEVEL
  else if n < CRT_TOP then BLANK_LEVEL
  else orig

/-- Content of `analog` after the per-line sync/burst pattern pass of
    crt_2ntsc (the loop `for (n = 0; n < CRT_VRES; n++)`). -/
def patternBuf (a0 : ℕ → ℤ) (s : NTSC_SETTINGS) (fieldv : ℤ) : ℕ → ℤ :=
  fun idx =>
    if idx < CRT_INPUT_SIZE then
      let n := idx / CRT_HRES
      let t := idx % CRT_HRES
      if n ≤ 3 ∨ (7 ≤ n ∧ n ≤ 9) then equalizing t
      else if 4 ≤ n ∧ n ≤ 6 then serration fieldv t
      else videoLine s n t (a0 idx)
    else a0 idx

/-- Flat index of the active-video store
    `v->analog[(x + xo) + (y + yo) * CRT_HRES]`. -/
def encIdx (xo rowBase : ℤ) (x : ℕ) : ℕ := ((x : ℤ) + xo + rowBase).toNat

/-- One iteration of the inner x loop of crt_2ntsc: sample two source rows,
    integer RGB→YIQ on the sum, band-limit through the three IIR filters,
    quadrature-modulate I/Q with `CC_PHASE(y+yo) * cc[(x+k)&3] / ccs`,
    scale by the white point, add `BLACK_LEVEL + black_point`, clamp to
    [0, 110].  Returns the three updated filters and the `ire` value. -/
def ntscPix (s : NTSC_SETTINGS) (v : CRT) (destw syA syB yph : ℤ) (x : ℕ)
    (fY fI fQ : IIRLP) : (IIRLP × IIRLP × IIRLP) × ℤ :=
  let sx := cdiv ((x : ℤ) * s.w) destw
  let pA := s.rgb (sx + syA)
  let pB := s.rgb (sx + syB)
  let rA := (asr pA 16) % 256
  let gA := (asr pA 8) % 256
  let bA := pA % 256
  let rB := (asr pB 16) % 256
  let gB := (asr pB 8) % 256
  let bB := pB % 256
  let fy0 := asr (19595 * rA + 38470 * gA + 7471 * bA
               + 19595 * rB + 38470 * gB + 7471 * bB) 15
  let fi0 := asr (39059 * rA - 18022 * gA - 21103 * bA
               + 39059 * rB - 18022 * gB - 21103 * bB) 15
  let fq0 := asr (13894 * rA - 34275 * gA + 20382 * bA
               + 13894 * rB - 34275 * gB + 20382 * bB) 15
  let rY := iirf fY fy0
  let rI := iirf fI fi0
  let rQ := iirf fQ fq0
  let fi := cdiv (rI.2 * yph * s.cc (x % 4)) s.ccs
  let fq := cdiv (rQ.2 * yph * s.cc ((x + 3) % 4)) s.ccs
  let ire := BLACK_LEVEL + v.black_point
    + asr ((rY.2 + fi + fq) * cdiv (WHITE_LEVEL * v.white_point) 100) 10
  ((rY.1, rI.1, rQ.1), ire)

/-- The inner `for (x = 0; x < destw; x++)` loop of crt_2ntsc; each step
    stores the clamped sample (narrowed to signed char) at `encIdx`. -/
def ntscRowGo (s : NTSC_SETTINGS) (v : CRT) (destw syA syB yph xo rowBase : ℤ) :
    (cnt : ℕ) → (x : ℕ) → IIRLP → IIRLP → IIRLP → (ℕ → ℤ) → (ℕ → ℤ)
  | 0, _, _, _, _, buf => buf
  | cnt + 1, x, fY, fI, fQ, buf =>
    let r := ntscPix s v destw syA syB yph x fY fI fQ
    ntscRowGo s v destw syA syB yph xo rowBase cnt (x + 1) r.1.1 r.1.2.1 r.1.2.2
      (updN buf (encIdx xo rowBase x) (sc (clampIre r.2)))

/-- The outer `for (y = 0; y < desth; y++)` loop of crt_2ntsc: computes the
    field offset and the two (clamped) source rows, resets the IIR filters,
    and runs the x loop. `CC_PHASE(y+yo)` is −1 on odd lines (chroma
    pattern 1). -/
def ntscRows (s : NTSC_SETTINGS) (v : CRT) (destw desth fieldv xo yo : ℤ) :
    (cnt : ℕ) → (y : ℕ) → (ℕ → ℤ) → (ℕ → ℤ)
  | 0, _, buf => buf
  | cnt + 1, y, buf =>
    let field_offset := cdiv (cdiv (fieldv * s.h + desth) desth) 2
    let syA0 := cdiv ((y : ℤ) * s.h) desth + field_offset
    let syB0 := cdiv ((y : ℤ) * s.h + cdiv desth 2) desth + field_offset
    let syA := (if syA0 ≥ s.h then s.h else syA0) * s.w
    let syB := (if syB0 ≥ s.h then s.h else syB0) * s.w
    let yph : ℤ := if ((y : ℤ) + yo) % 2 = 1 then -1 else 1
    let buf' := ntscRowGo s v destw syA syB yph xo (((y : ℤ) + yo) * 910)
      destw.toNat 0 iirY iirI iirQ buf
    ntscRows s v destw desth fieldv xo yo cnt (y + 1) buf'

/-- `crt_2ntsc` from crt.c (CRT_DO_BLOOM = 0): lay out the sync/burst
    pattern for all 262 lines, then write the active-video rectangle.
    `s->field &= 1` is modelled by taking `s.field % 2` everywhere the
    masked field is used. -/
def crt_2ntsc (v : CRT) (s : NTSC_SETTINGS) : CRT :=
  let a2 := ntscRows s v (destwOf s) (desthOf s) (s.field % 2) (xoOf s) (yoOf s)
    (desthOf s).toNat 0 (patternBuf v.analog s (s.field % 2))
  { v with analog := a2 }

/-! ### Facts about the encoder layout (claims C2, C3, C7) -/

theorem SYNC_BEG_eq : SYNC_BEG = 21 := by decide

theorem BW_BEG_eq : BW_BEG = 88 := by decide

theorem CB_BEG_eq : CB_BEG = 97 := by decide

theorem BP_BEG_eq : BP_BEG = 133 := by decide

theorem AV_BEG_eq : AV_BEG = 156 := by decide

theorem HRES_eq : CRT_HRES = 910 := by decide

theorem SIZE_eq : CRT_INPUT_SIZE = 238420 := by decide

theorem TOP_eq : CRT_TOP = 21 := by decide

theorem CBLEN_eq : CB_BEG + CB_CYCLES * CRT_CB_FREQ = 137 := by decide

theorem clampIre_range (x : ℤ) : 0 ≤ clampIre x ∧ clampIre x ≤ 110 := by
  unfold clampIre
  split_ifs <;> omega

theorem sc_clampIre (x : ℤ) : sc (clampIre x) = clampIre x := by
  have h := clampIre_range x
  exact sc_eq_of_range _ (by omega) (by omega)

theorem destwOf_le (s : NTSC_SETTINGS) : destwOf s ≤ 753 := by
  unfold destwOf
  split_ifs <;> omega

theorem desthOf_le (s : NTSC_SETTINGS) : desthOf s ≤ 236 := by
  have h : encDesthMax = 236 := by decide
  unfold desthOf
  rw [h]
  split_ifs <;> omega

theorem xoOf_bounds (s : NTSC_SETTINGS) (h1 : 1 ≤ destwOf s) :
    160 ≤ xoOf s ∧ ∀ j : ℤ, 0 ≤ j → j < destwOf s → j + xoOf s ≤ 912 := by
  have hle := destwOf_le s
  unfold xoOf alignTo4 cdiv
  rw [Int.tdiv_eq_ediv (by omega) (by norm_num)]
  constructor
  · omega
  · intro j hj0 hj
    omega

theorem yoOf_nonneg (s : NTSC_SETTINGS) (h1 : 1 ≤ desthOf s) : 25 ≤ yoOf s := by
  have hle := desthOf_le s
  unfold yoOf cdiv
  rw [Int.tdiv_eq_ediv (by omega) (by norm_num)]
  omega

theorem ntscRowGo_miss (s : NTSC_SETTINGS) (v : CRT) (destw syA syB yph xo rowBase : ℤ) :
    ∀ (cnt x : ℕ) (fY fI fQ : IIRLP) (buf : ℕ → ℤ) (target : ℕ),
    (∀ j : ℕ, x ≤ j → j < x + cnt → encIdx xo rowBase j ≠ target) →
    ntscRowGo s v destw syA syB yph xo rowBase cnt x fY fI fQ buf target = buf target := by
  intro cnt
  induction cnt with
  | zero =>
    intro x fY fI fQ buf target _
    rfl
  | succ k ih =>
    intro x fY fI fQ buf target hmiss
    simp only [ntscRowGo]
    refine (ih (x + 1) _ _ _ _ target ?_).trans ?_
    · intro j hj1 hj2
      exact hmiss j (by omega) (by omega)
    · simp only [updN]
      rw [if_neg]
      intro hEq
      exact hmiss x (by omega) (by omega) hEq.symm

theorem ntscRowGo_or (s : NTSC_SETTINGS) (v : CRT) (destw syA syB yph xo rowBase : ℤ) :
    ∀ (cnt x : ℕ) (fY fI fQ : IIRLP) (buf : ℕ → ℤ) (target : ℕ),
    ntscRowGo s v destw syA syB yph xo rowBase cnt x fY fI fQ buf target = buf target ∨
    (0 ≤ ntscRowGo s v destw syA syB yph xo rowBase cnt x fY fI fQ buf target ∧
     ntscRowGo s v destw syA syB yph xo rowBase cnt x fY fI fQ buf target ≤ 110) := by
  intro cnt
  induction cnt with
  | zero =>
    intro x fY fI fQ buf target
    left
    rfl
  | succ k ih =>
    intro x fY fI fQ buf target
    simp only [ntscRowGo]
    rcases ih (x + 1) ((ntscPix s v destw syA syB yph x fY fI fQ).1.1)
        ((ntscPix s v destw syA syB yph x fY fI fQ).1.2.1)
        ((ntscPix s v destw syA syB yph x fY fI fQ).1.2.2)
        (updN buf (encIdx xo rowBase x)
          (sc (clampIre (ntscPix s v destw syA syB yph x fY fI fQ).2))) target with h | h
    · rw [h]
      simp only [updN]
      split_ifs with hEq
      · right
        rw [sc_clampIre]
        exact clampIre_range _
      · left
        rfl
    · right
      exact h

theorem ntscRowGo_hits (s : NTSC_SETTINGS) (v : CRT) (destw syA syB yph xo rowBase : ℤ)
    (hnn : 0 ≤ xo + rowBase) :
    ∀ (cnt x : ℕ) (fY fI fQ : IIRLP) (buf : ℕ → ℤ) (j : ℕ), x ≤ j → j < x + cnt →
    0 ≤ ntscRowGo s v destw syA syB yph xo rowBase cnt x fY fI fQ buf (encIdx xo rowBase j) ∧
    ntscRowGo s v destw syA syB yph xo rowBase cnt x fY fI fQ buf (encIdx xo rowBase j) ≤ 110 := by
  intro cnt
  induction cnt with
  | zero =>
    intro x fY fI fQ buf j h1 h2
    omega
  | succ k ih =>
    intro x fY fI fQ buf j h1 h2
    rcases Nat.lt_or_ge x j with hx | hx
    · simp only [ntscRowGo]
      exact ih (x + 1) _ _ _ _ j (by omega) (by omega)
    · have hjx : j = x := by omega
      subst hjx
      simp only [ntscRowGo]
      rw [ntscRowGo_miss s v destw syA syB yph xo rowBase k (j + 1) _ _ _ _ _ ?_]
      · simp only [updN, if_pos rfl]
        rw [sc_clampIre]
        exact clampIre_range _
      · intro j2 hj1 hj2
        simp only [encIdx]
        omega

theorem ntscRows_miss (s : NTSC_SETTINGS) (v : CRT) (destw desth fieldv xo yo : ℤ) :
    ∀ (cnt y : ℕ) (buf : ℕ → ℤ) (target : ℕ),
    (∀ yy : ℕ, y ≤ yy → yy < y + cnt → ∀ j : ℕ, j < destw.toNat →
      encIdx xo (((yy : ℤ) + yo) * 910) j ≠ target) →
    ntscRows s v destw desth fieldv xo yo cnt y buf target = buf target := by
  intro cnt
  induction cnt with
  | zero =>
    intro y buf target _
    rfl
  | succ k ih =>
    intro y buf target hmiss
    simp only [ntscRows]
    refine (ih (y + 1) _ target ?_).trans ?_
    · intro yy hy1 hy2 j hj
      exact hmiss yy (by omega) (by omega) j hj
    · exact ntscRowGo_miss s v destw _ _ _ xo _ destw.toNat 0 _ _ _ _ target
        (fun j hj1 hj2 => hmiss y (by omega) (by omega) j (by omega))

theorem ntscRows_or (s : NTSC_SETTINGS) (v : CRT) (destw desth fieldv xo yo : ℤ) :
    ∀ (cnt y : ℕ) (buf : ℕ → ℤ) (target : ℕ),
    ntscRows s v destw desth fieldv xo yo cnt y buf target = buf target ∨
    (0 ≤ ntscRows s v destw desth fieldv xo yo cnt y buf target ∧
     ntscRows s v destw desth fieldv xo yo cnt y buf target ≤ 110) := by
  intro cnt
  induction cnt with
  | zero =>
    intro y buf target
    left
    rfl
  | succ k ih =>
    intro y buf target
    simp only [ntscRows]
    rcases ih (y + 1) _ target with h | h
    · rw [h]
      exact ntscRowGo_or s v destw _ _ _ xo _ destw.toNat 0 _ _ _ buf target
    · right
      exact h

theorem ntscRows_hits (s : NTSC_SETTINGS) (v : CRT) (destw desth fieldv xo yo : ℤ)
    (hxo : 0 ≤ xo) (hyo : 0 ≤ yo) (hdw : destw ≤ 753) :
    ∀ (cnt y : ℕ) (buf : ℕ → ℤ) (yy : ℕ), y ≤ yy → yy < y + cnt →
    ∀ x : ℕ, x < destw.toNat →
    0 ≤ ntscRows s v destw desth fieldv xo yo cnt y buf
        (encIdx xo (((yy : ℤ) + yo) * 910) x) ∧
    ntscRows s v destw desth fieldv xo yo cnt y buf
        (encIdx xo (((yy : ℤ) + yo) * 910) x) ≤ 110 := by
  intro cnt
  induction cnt with
  | zero =>
    intro y buf yy h1 h2 x hx
    omega
  | succ k ih =>
    intro y buf yy h1 h2 x hx
    rcases Nat.lt_or_ge y yy with hy | hy
    · simp only [ntscRows]
      exact ih (y + 1) _ yy (by omega) (by omega) x hx
    · have hyy : yy = y := by omega
      subst hyy
      simp only [ntscRows]
      rw [ntscRows_miss s v destw desth fieldv xo yo k (yy + 1) _ _ ?_]
      · exact ntscRowGo_hits s v destw _ _ _ xo _ (by positivity) destw.toNat 0 _ _ _ _ x
          (by omega) (by omega)
      · intro y2 hy1 hy2 j hj
        simp only [encIdx]
        omega

theorem CBF_eq : CB_CYCLES * CRT_CB_FREQ = 40 := by decide

theorem patternBuf_video (a0 : ℕ → ℤ) (s : NTSC_SETTINGS) (fieldv : ℤ) (n t : ℕ)
    (hn1 : 10 ≤ n) (hn2 : n < 262) (ht : t < 910) :
    patternBuf a0 s fieldv (n * 910 + t) = videoLine s n t (a0 (n * 910 + t)) := by
  simp only [patternBuf, HRES_eq, SIZE_eq]
  rw [if_pos (by omega)]
  have hdiv : (n * 910 + t) / 910 = n := by omega
  have hmod : (n * 910 + t) % 910 = t := by omega
  rw [hdiv, hmod]
  rw [if_neg (by omega), if_neg (by omega)]

theorem videoLine_sync (s : NTSC_SETTINGS) (n t : ℕ) (orig : ℤ)
    (h1 : 21 ≤ t) (h2 : t < 88) : videoLine s n t orig = SYNC_LEVEL := by
  simp only [videoLine, CB_BEG_eq, CBF_eq, SYNC_BEG_eq, BW_BEG_eq, AV_BEG_eq, TOP_eq]
  rw [if_neg (by omega), if_neg (by omega), if_pos (by omega)]

theorem videoLine_blank (s : NTSC_SETTINGS) (n t : ℕ) (orig : ℤ)
    (hb : t < 21 ∨ (88 ≤ t ∧ t < 97) ∨ (137 ≤ t ∧ t < 156)) :
    videoLine s n t orig = BLANK_LEVEL := by
  simp only [videoLine, CB_BEG_eq, CBF_eq, SYNC_BEG_eq, BW_BEG_eq, AV_BEG_eq, TOP_eq]
  rcases hb with h | h | h
  · rw [if_neg (by omega), if_pos (by omega)]
  · rw [if_neg (by omega), if_neg (by omega), if_neg (by omega), if_pos (by omega)]
  · rw [if_neg (by omega), if_neg (by omega), if_neg (by omega), if_pos (by omega)]

theorem videoLine_burst (s : NTSC_SETTINGS) (n t : ℕ) (orig : ℤ)
    (ha : s.as_color ≠ 0) (h1 : 97 ≤ t) (h2 : t < 137) :
    videoLine s n t orig = sc (burstVal s t) := by
  simp only [videoLine, CB_BEG_eq, CBF_eq]
  rw [if_pos ⟨ha, by omega, by omega⟩]

theorem videoLine_burst0 (s : NTSC_SETTINGS) (n t : ℕ) (orig : ℤ)
    (ha : s.as_color = 0) (h1 : 97 ≤ t) (h2 : t < 137) :
    videoLine s n t orig = BLANK_LEVEL := by
  simp only [videoLine, CB_BEG_eq, CBF_eq, SYNC_BEG_eq, BW_BEG_eq, AV_BEG_eq, TOP_eq]
  rw [if_neg (by omega), if_neg (by omega), if_neg (by omega), if_pos (by omega)]

/-- On the horizontal-blanking cells [3, AV_BEG) of every line below the
    vertical interval, crt_2ntsc leaves exactly the sync/burst pattern: the
    active-video rectangle (columns ≥ 160 relative to a row start, spilling
    no further than column 2 of the next row) never lands there. -/
theorem crt_2ntsc_hblank (v : CRT) (s : NTSC_SETTINGS) (n t : ℕ)
    (hn1 : 10 ≤ n) (hn2 : n < 262) (h3 : 3 ≤ t) (h156 : t < 156) :
    (crt_2ntsc v s).analog (n * 910 + t) =
      videoLine s n t (v.analog (n * 910 + t)) := by
  show ntscRows s v (destwOf s) (desthOf s) (s.field % 2) (xoOf s) (yoOf s)
      (desthOf s).toNat 0 (patternBuf v.analog s (s.field % 2)) (n * 910 + t) = _
  rw [ntscRows_miss]
  · exact patternBuf_video v.analog s (s.field % 2) n t hn1 hn2 (by omega)
  · intro yy hy1 hy2 j hj
    have hdw1 : (1:ℤ) ≤ destwOf s := by omega
    have hdh1 : (1:ℤ) ≤ desthOf s := by omega
    have hxo := xoOf_bounds s hdw1
    have hyo := yoOf_nonneg s hdh1
    have hxj := hxo.2 (j : ℤ) (by omega) (by omega)
    simp only [encIdx]
    omega

/-- Claim C2 (amended): after `crt_2ntsc` on any input, on every
    non-vertical-blanking line (index 10..261), the analog buffer holds
    SYNC_LEVEL on [SYNC_BEG, BW_BEG) and BLANK_LEVEL on
    [3, SYNC_BEG) ∪ [BW_BEG, CB_BEG) ∪ [CB_BEG + 40, AV_BEG); when
    `as_color = 0` the blank also covers the burst window [CB_BEG, CB_BEG+40)
    (and with it the claimed [BP_BEG, AV_BEG)).  The claim's original blank
    interval [BP_BEG, AV_BEG) fails on [133, 137) when `as_color = 1`
    because the ten burst cycles extend 4 samples past BP_BEG, and its
    [0, SYNC_BEG) can fail on [0, 3) where a full-width active-video row
    (destw = AV_LEN) spills into the next row's first columns. -/
theorem c2_timing_layout (v : CRT) (s : NTSC_SETTINGS) (n t : ℕ)
    (hn1 : 10 ≤ n) (hn2 : n < 262) :
    (21 ≤ t → t < 88 → (crt_2ntsc v s).analog (n * 910 + t) = SYNC_LEVEL) ∧
    ((3 ≤ t ∧ t < 21) ∨ (88 ≤ t ∧ t < 97) ∨ (137 ≤ t ∧ t < 156) →
      (crt_2ntsc v s).analog (n * 910 + t) = BLANK_LEVEL) ∧
    (s.as_color = 0 → 97 ≤ t → t < 137 →
      (crt_2ntsc v s).analog (n * 910 + t) = BLANK_LEVEL) := by
  refine ⟨fun h1 h2 => ?_, fun hb => ?_, fun ha h1 h2 => ?_⟩
  · rw [crt_2ntsc_hblank v s n t hn1 hn2 (by omega) (by omega)]
    exact videoLine_sync s n t _ h1 h2
  · rcases hb with h | h | h <;>
    · rw [crt_2ntsc_hblank v s n t hn1 hn2 (by omega) (by omega)]
      exact videoLine_blank s n t _ (by omega)
  · rw [crt_2ntsc_hblank v s n t hn1 hn2 (by omega) (by omega)]
    exact videoLine_burst0 s n t _ ha h1 h2

/-- A concrete engine state for the encoder claims: all-zero buffers,
    default user settings (crt_reset), 64×64 output. -/
def encV : CRT := ⟨fun _ => 0, fun _ => 0, 0, 0, 0, 0, 179, 18, 0, 100, 64, 64, fun _ => 0⟩

/-- The documented chroma pattern {0, 1, 0, -1}. -/
def ccNice : ℕ → ℤ := fun k => if k % 4 = 1 then 1 else if k % 4 = 3 then -1 else 0

/-- 1×1 raw color input with the standard chroma pattern and ccs = 1. -/
def encSnice : NTSC_SETTINGS := ⟨fun _ => 0, 1, 1, 1, 1, 0, ccNice, 1⟩

/-- A chroma pattern with an out-of-char-range burst amplitude. -/
def ccBig : ℕ → ℤ := fun k => if k % 4 = 1 then 1000 else 0

/-- 1×1 raw color input whose color-burst value overflows a signed char. -/
def encSbig : NTSC_SETTINGS := ⟨fun _ => 0, 1, 1, 1, 1, 0, ccBig, 1⟩

/-- Claim C2 (as stated, refuted): with `as_color = 1` and the standard
    chroma pattern, sample t = 133 = BP_BEG of non-blanking line 10 holds
    the burst value 20, not BLANK_LEVEL, because the ten burst cycles end at
    CB_BEG + 40 = 137 > BP_BEG = 133. -/
theorem c2_counterexample :
    10 ≤ 10 ∧ (10:ℕ) < 262 ∧ 133 ≤ 133 ∧ (133:ℕ) < 156 ∧
    (crt_2ntsc encV encSnice).analog (10 * 910 + 133) = 20 ∧
    (crt_2ntsc encV encSnice).analog (10 * 910 + 133) ≠ BLANK_LEVEL := by decide

/-- Witness for `c2_timing_layout` at line 10, samples 21 (sync) and 3 (blank). -/
theorem c2_timing_layout_witness :
    10 ≤ 10 ∧ (10:ℕ) < 262 ∧
    (crt_2ntsc encV encSnice).analog (10 * 910 + 21) = SYNC_LEVEL ∧
    (crt_2ntsc encV encSnice).analog (10 * 910 + 3) = BLANK_LEVEL :=
  ⟨by decide, by decide,
   (c2_timing_layout encV encSnice 10 21 (by decide) (by decide)).1 (by decide) (by decide),
   (c2_timing_layout encV encSnice 10 3 (by decide) (by decide)).2.1 (by decide)⟩

/-- Claim C3 (amended): on every non-vertical-blanking line, the burst
    window [CB_BEG, CB_BEG + 10·CRT_CB_FREQ) holds
    `BLANK_LEVEL + cc[t & 3]·BURST_LEVEL/ccs` when `as_color = 1` —
    provided that value fits in a signed char (the store narrows otherwise)
    — and BLANK_LEVEL when `as_color = 0`. -/
theorem c3_burst_samples (v : CRT) (s : NTSC_SETTINGS) (n t : ℕ)
    (hn1 : 10 ≤ n) (hn2 : n < 262) (ht1 : 97 ≤ t) (ht2 : t < 137) :
    (s.as_color ≠ 0 → -128 ≤ burstVal s t → burstVal s t ≤ 127 →
      (crt_2ntsc v s).analog (n * 910 + t) = burstVal s t) ∧
    (s.as_color = 0 → (crt_2ntsc v s).analog (n * 910 + t) = BLANK_LEVEL) := by
  constructor
  · intro ha hb1 hb2
    rw [crt_2ntsc_hblank v s n t hn1 hn2 (by omega) (by omega)]
    rw [videoLine_burst s n t _ ha ht1 ht2]
    exact sc_eq_of_range _ hb1 hb2
  · intro ha
    rw [crt_2ntsc_hblank v s n t hn1 hn2 (by omega) (by omega)]
    exact videoLine_burst0 s n t _ ha ht1 ht2

/-- Claim C3 (as stated, refuted): with `cc[1] = 1000`, `ccs = 1` the burst
    formula gives 20000, but the `signed char` store narrows it to 32, so
    the stored sample does not equal `BLANK_LEVEL + cc[t&3]·BURST_LEVEL/ccs`. -/
theorem c3_counterexample :
    (crt_2ntsc encV encSbig).analog (10 * 910 + 97) = 32 ∧
    burstVal encSbig 97 = 20000 ∧
    (crt_2ntsc encV encSbig).analog (10 * 910 + 97) ≠ burstVal encSbig 97 := by decide

/-- Witness for `c3_burst_samples` at line 10, sample 97. -/
theorem c3_burst_samples_witness :
    encSnice.as_color ≠ 0 ∧ -128 ≤ burstVal encSnice 97 ∧ burstVal encSnice 97 ≤ 127 ∧
    (crt_2ntsc encV encSnice).analog (10 * 910 + 97) = burstVal encSnice 97 :=
  ⟨by decide, by decide, by decide,
   (c3_burst_samples encV encSnice 10 97 (by decide) (by decide) (by decide)
     (by decide)).1 (by decide) (by decide) (by decide)⟩

theorem equalizing_range (t : ℕ) : -128 ≤ equalizing t ∧ equalizing t ≤ 127 := by
  unfold equalizing SYNC_LEVEL BLANK_LEVEL
  split_ifs <;> omega

theorem serration_range (fieldv : ℤ) (t : ℕ) :
    -128 ≤ serration fieldv t ∧ serration fieldv t ≤ 127 := by
  unfold serration SYNC_LEVEL BLANK_LEVEL
  split_ifs <;> omega

theorem videoLine_or (s : NTSC_SETTINGS) (n t : ℕ) (orig : ℤ) :
    videoLine s n t orig = orig ∨
    (-128 ≤ videoLine s n t orig ∧ videoLine s n t orig ≤ 127) := by
  unfold videoLine SYNC_LEVEL BLANK_LEVEL
  split_ifs
  · right
    exact sc_range _
  · right
    omega
  · right
    omega
  · right
    omega
  · right
    omega
  · left
    rfl

theorem patternBuf_or (a0 : ℕ → ℤ) (s : NTSC_SETTINGS) (fieldv : ℤ) (idx : ℕ) :
    patternBuf a0 s fieldv idx = a0 idx ∨
    (-128 ≤ patternBuf a0 s fieldv idx ∧ patternBuf a0 s fieldv idx ≤ 127) := by
  simp only [patternBuf]
  split_ifs with h1 h2 h3
  · right
    exact equalizing_range _
  · right
    exact serration_range _ _
  · exact videoLine_or s _ _ _
  · left
    rfl

/-- Claim C7 (amended): every sample crt_2ntsc stores lies in [-128, 127]
    (every cell of `analog` is either untouched or in range — the
    `signed char` store narrows any wider value); every active-video sample
    is clamped into [0, 110]; and under the condition that the burst
    amplitude `cc[k]·BURST_LEVEL/ccs` fits a signed char, the burst samples
    are stored without narrowing.  The claim's "any cc[4] and nonzero ccs"
    fails for the value computed by the burst loop, which can leave
    [-128, 127] before the store (see the counterexample). -/
theorem c7_sample_ranges (v : CRT) (s : NTSC_SETTINGS) :
    (∀ idx : ℕ, (crt_2ntsc v s).analog idx = v.analog idx ∨
      (-128 ≤ (crt_2ntsc v s).analog idx ∧ (crt_2ntsc v s).analog idx ≤ 127)) ∧
    (∀ y x : ℕ, y < (desthOf s).toNat → x < (destwOf s).toNat →
      0 ≤ (crt_2ntsc v s).analog (encIdx (xoOf s) (((y : ℤ) + yoOf s) * 910) x) ∧
      (crt_2ntsc v s).analog (encIdx (xoOf s) (((y : ℤ) + yoOf s) * 910) x) ≤ 110) ∧
    (∀ n t : ℕ, 10 ≤ n → n < 262 → 97 ≤ t → t < 137 → s.as_color ≠ 0 →
      -128 ≤ burstVal s t → burstVal s t ≤ 127 →
      (crt_2ntsc v s).analog (n * 910 + t) = burstVal s t) := by
  have he : (crt_2ntsc v s).analog = ntscRows s v (destwOf s) (desthOf s) (s.field % 2)
      (xoOf s) (yoOf s) (desthOf s).toNat 0 (patternBuf v.analog s (s.field % 2)) := rfl
  refine ⟨?_, ?_, ?_⟩
  · intro idx
    rw [he]
    rcases ntscRows_or s v (destwOf s) (desthOf s) (s.field % 2) (xoOf s) (yoOf s)
        (desthOf s).toNat 0 (patternBuf v.analog s (s.field % 2)) idx with h | h
    · rw [h]
      exact patternBuf_or v.analog s (s.field % 2) idx
    · right
      exact ⟨by omega, by omega⟩
  · intro y x hy hx
    have hdw1 : (1:ℤ) ≤ destwOf s := by omega
    have hdh1 : (1:ℤ) ≤ desthOf s := by omega
    have hxo := xoOf_bounds s hdw1
    have hyo := yoOf_nonneg s hdh1
    exact ntscRows_hits s v (destwOf s) (desthOf s) (s.field % 2) (xoOf s) (yoOf s)
      (by omega) (by omega) (destwOf_le s) (desthOf s).toNat 0
      (patternBuf v.analog s (s.field % 2)) y (by omega) (by omega) x hx
  · intro n t hn1 hn2 ht1 ht2 ha hb1 hb2
    rw [crt_2ntsc_hblank v s n t hn1 hn2 (by omega) (by omega)]
    rw [videoLine_burst s n t _ ha ht1 ht2]
    exact sc_eq_of_range _ hb1 hb2

/-- Claim C7 (as stated, refuted): with `cc[1] = 1000`, `ccs = 1` (an
    allowed NTSC_SETTINGS input) the burst loop computes the sample value
    20000, outside [-128, 127]; the store keeps only its low byte (32). -/
theorem c7_counterexample :
    burstVal encSbig 97 = 20000 ∧
    ¬ (-128 ≤ burstVal encSbig 97 ∧ burstVal encSbig 97 ≤ 127) ∧
    (crt_2ntsc encV encSbig).analog (10 * 910 + 97) = sc (burstVal encSbig 97) ∧
    sc (burstVal encSbig 97) = 32 := by decide

/-- Witness for `c7_sample_ranges`: its active-video part at the single
    written pixel of a 1×1 raw encode, and its burst part at line 10. -/
theorem c7_sample_ranges_witness :
    (0 ≤ (crt_2ntsc encV encSnice).analog (encIdx (xoOf encSnice)
        (((0 : ℤ) + yoOf encSnice) * 910) 0) ∧
     (crt_2ntsc encV encSnice).analog (encIdx (xoOf encSnice)
        (((0 : ℤ) + yoOf encSnice) * 910) 0) ≤ 110) ∧
    (crt_2ntsc encV encSnice).analog (10 * 910 + 97) = burstVal encSnice 97 :=
  ⟨(c7_sample_ranges encV encSnice).2.1 0 0 (by decide) (by decide),
   (c7_sample_ranges encV encSnice).2.2 10 97 (by decide) (by decide) (by decide)
     (by decide) (by decide) (by decide) (by decide)⟩

/-! ### Decoder `crt_draw` (crt.c, CRT_DO_BLOOM = 0, CRT_DO_VSYNC = 1,
    CRT_DO_HSYNC = 1, CRT_NES_HIRES = 1) -/

/-- Bounds-checked read of a signal-buffer cell: the C arrays
    `analog` / `inp` cover [0, CRT_INPUT_SIZE); `none` models an
    out-of-bounds access. -/
def sigRead (inp : ℕ → ℤ) (idx : ℤ) : Option ℤ :=
  if 0 ≤ idx ∧ idx < (CRT_INPUT_SIZE : ℤ) then some (inp idx.toNat) else none

/-- Total read used where crt_draw dereferences the inp buffer; an
    out-of-bounds access (undefined behaviour in C) is modelled as 0. -/
def readS (inp : ℕ → ℤ) (idx : ℤ) : ℤ := (sigRead inp idx).getD 0

/-- One step of the static congruential noise generator of crt_draw:
    `rn = 214019 * rn + 140327895` on a 32-bit int, kept as its
    two's-complement bit pattern. -/
def rnStep (rn : ℕ) : ℕ := (214019 * rn + 140327895) % 4294967296

/-- PRNG state after i steps from entry state rn. -/
def rnAt (rn : ℕ) : ℕ → ℕ
  | 0 => rn
  | i + 1 => rnStep (rnAt rn i)

/-- `(rn >> 16) & 0xff` for the state used at cell i (the generator steps
    before use).  For a negative 32-bit rn the C arithmetic shift followed
    by the byte mask agrees with shifting the bit pattern, since
    2^16 ≡ 0 (mod 256). -/
def noiseBits (rn i : ℕ) : ℤ := (((rnAt rn (i + 1) >>> 16) % 256 : ℕ) : ℤ)

/-- The noise/clamp loop filling `v->inp` from `v->analog`
    (crt.c lines 818-828). -/
def inpOf (a : ℕ → ℤ) (noise : ℤ) (rn : ℕ) : ℕ → ℤ := fun i =>
  let s := a i + asr ((noiseBits rn i - 127) * noise) 8
  if s > 127 then 127 else if s < -127 then -127 else s

/-- Inner vsync integration over one candidate line (crt.c 843-860):
    returns the first j at which the running sum reaches 150*SYNC_LEVEL
    (the CRT_NES_HIRES threshold), if any.  These reads are always in
    bounds, so they hit the buffer directly. -/
def vsyncLine (inp : ℕ → ℤ) (base : ℕ) : (cnt j : ℕ) → (s : ℤ) → Option ℕ
  | 0, _, _ => none
  | cnt + 1, j, s =>
    let t := s + inp (base + j)
    if t ≤ 150 * SYNC_LEVEL then some j else vsyncLine inp base cnt (j + 1) t

/-- Outer vsync search (crt.c 839-861): 16 candidate lines starting at
    vsync - 8; returns (line, j, found).  On a miss the result carries the
    last candidate line and j = CRT_HRES, exactly what the fallthrough
    leaves in the C locals `line` and `j`. -/
def vsyncGo (inp : ℕ → ℤ) (v0 : ℤ) : (cnt : ℕ) → (i lineAcc : ℤ) → (jAcc : ℕ) → ℤ × ℕ × Bool
  | 0, _, lineAcc, jAcc => (lineAcc, jAcc, false)
  | cnt + 1, i, _, _ =>
    let line := posmod (v0 + i) 262
    match vsyncLine inp (line.toNat * 910) 910 0 0 with
    | some j => (line, j, true)
    | none => vsyncGo inp v0 cnt (i + 1) line 910

/-- `ln = POSMOD(line + v->vsync, CRT_VRES) * CRT_HRES` (crt.c 899). -/
def lnOf (vsync : ℤ) (line : ℕ) : ℤ := posmod ((line : ℤ) + vsync) 262 * 910

/-- Index of a horizontal-sync-search read: `ln + hsync + SYNC_BEG + i`
    (crt.c 900-906). -/
def hsReadIdx (ln hsync i : ℤ) : ℤ := ln + hsync + 21 + i

/-- Index of a burst-recovery read: `ln + (hsync & ~3) + i`
    (crt.c 915-920). -/
def burstReadIdx (ln hsync : ℤ) (i : ℕ) : ℤ := ln + alignTo4 hsync + (i : ℤ)

/-- `pos = POSMOD(AV_BEG + hsync, CRT_HRES) + POSMOD(line + vsync, CRT_VRES)
    * CRT_HRES` (crt.c 922-924). -/
def avPos (vsync hsync : ℤ) (line : ℕ) : ℤ :=
  posmod (156 + hsync) 910 + posmod ((line : ℤ) + vsync) 262 * 910

/-- Index of an active-video demodulation read: `pos + i`
    (crt.c 958-968). -/
def avReadIdx (pos : ℤ) (i : ℕ) : ℤ := pos + (i : ℤ)

/-- Horizontal sync search (crt.c 900-913): integrate sig[SYNC_BEG + i] for
    i from -8, break once the sum reaches 4*SYNC_LEVEL; returns the final i
    (8 iff the window was exhausted without a hit). -/
def hsyncAccum (inp : ℕ → ℤ) (ln hsync : ℤ) : (cnt : ℕ) → (i s : ℤ) → ℤ
  | 0, i, _ => i
  | cnt + 1, i, s =>
    let t := s + readS inp (hsReadIdx ln hsync i)
    if t ≤ 4 * SYNC_LEVEL then i else hsyncAccum inp ln hsync cnt (i + 1) t

/-- Burst-recovery loop (crt.c 915-920): for i in [CB_BEG, CB_BEG + 40),
    ccref[i & 3] = ccref[i & 3] * 127 / 128 + sig[i], with
    `base = ln + (hsync & ~3)`. -/
def burstFold (inp : ℕ → ℤ) (base : ℤ) : (cnt i : ℕ) → (ℕ → ℤ) → ℕ → ℤ
  | 0, _, cc => cc
  | cnt + 1, i, cc =>
    burstFold inp base cnt (i + 1)
      (updN cc (i % 4) (ccrefStep (cc (i % 4)) (readS inp (base + (i : ℤ)))))

/-- `wave[0..3]` (crt.c 928-935) as a function of the index taken & 3. -/
def waveFour (w0 w1 : ℤ) : ℕ → ℤ := fun k =>
  if k % 4 = 0 then w0 else if k % 4 = 1 then w1 else if k % 4 = 2 then -w0 else -w1

/-- Demodulation loop (crt.c 956-968): for i in [0, AV_LEN) produce the
    YIQ triple `(eqf(eqY, sig[i]+bright) << 4, eqf(eqI, sig[i]*wave[i&3]>>9)
    >> 3, eqf(eqQ, sig[i]*wave[(i+3)&3]>>9) >> 3)`; the three equalizers are
    threaded through (they are freshly reset before the loop). -/
def demodList (inp : ℕ → ℤ) (pos bright : ℤ) (wv : ℕ → ℤ) :
    (cnt i : ℕ) → EQF → EQF → EQF → List (ℤ × ℤ × ℤ)
  | 0, _, _, _, _ => []
  | cnt + 1, i, fy, fi, fq =>
    let sv := readS inp (pos + (i : ℤ))
    let rY := eqf fy (sv + bright)
    let rI := eqf fi (asr (sv * wv (i % 4)) 9)
    let rQ := eqf fq (asr (sv * wv ((i + 3) % 4)) 9)
    (rY.2 * 16, asr rI.2 3, asr rQ.2 3) ::
      demodList inp pos bright wv cnt (i + 1) rY.1 rI.1 rQ.1

/-- One output pixel from scan position pos (crt.c 977-1003): linear
    interpolation between adjacent YIQ samples, YIQ→RGB with the fixed
    coefficient matrix, contrast scaling, per-channel clamp to [0, 255],
    and the pack `r << 16 | g << 8 | b` (disjoint bytes, hence a sum). -/
def pixelRGB (dl : List (ℤ × ℤ × ℤ)) (contrast : ℤ) (pos : ℕ) : ℤ :=
  let R : ℕ := pos % 4096
  let L : ℕ := 4095 - R
  let sI : ℕ := pos >>> 12
  let A := dl.getD sI (0, 0, 0)
  let B := dl.getD (sI + 1) (0, 0, 0)
  let y := asr (A.1 * (L : ℤ)) 2 + asr (B.1 * (R : ℤ)) 2
  let ii := asr (A.2.1 * (L : ℤ)) 14 + asr (B.2.1 * (R : ℤ)) 14
  let q := asr (A.2.2 * (L : ℤ)) 14 + asr (B.2.2 * (R : ℤ)) 14
  let r := asr (asr (y + 3879 * ii + 2556 * q) 12 * contrast) 8
  let g := asr (asr (y - 1126 * ii - 2605 * q) 12 * contrast) 8
  let b := asr (asr (y - 4530 * ii + 7021 * q) 12 * contrast) 8
  let r2 := if r < 0 then 0 else if r > 255 then 255 else r
  let g2 := if g < 0 then 0 else if g > 255 then 255 else g
  let b2 := if b < 0 then 0 else if b > 255 then 255 else b
  r2 * 65536 + g2 * 256 + b2

/-- Phosphor blend (crt.c 1003-1006):
    `((aa & 0xfefeff) >> 1) + ((bb & 0xfefeff) >> 1)`. -/
def blendF (aa bb : ℤ) : ℤ := asr (Int.land aa 0xfefeff) 1 + asr (Int.land bb 0xfefeff) 1

/-- Scan/blend loop (crt.c 973-1006): `for (pos = 0; pos < scanR && cL < cR;
    pos += dx)`; k counts output cells written starting at buffer offset cL0.
    The fuel equals the cell count, which bounds the iteration count. -/
def scanGo (dl : List (ℤ × ℤ × ℤ)) (contrast : ℤ) (scanR dx cL0 outwN : ℕ) :
    (fuel pos k : ℕ) → (ℕ → ℤ) → ℕ → ℤ
  | 0, _, _, buf => buf
  | fuel + 1, pos, k, buf =>
    if pos < scanR ∧ k < outwN then
      scanGo dl contrast scanR dx cL0 outwN fuel (pos + dx) (k + 1)
        (updN buf (cL0 + k) (blendF (pixelRGB dl contrast pos) (buf (cL0 + k))))
    else buf

/-- Row duplication (crt.c 1008-1012): for s in [beg + 1, end) copy row
    s - 1 over row s (outw ints per row). -/
def dupRowsGo (outwN : ℕ) : (cnt sRow : ℕ) → (ℕ → ℤ) → ℕ → ℤ
  | 0, _, buf => buf
  | cnt + 1, sRow, buf =>
    dupRowsGo outwN cnt (sRow + 1)
      (fun c => if sRow * outwN ≤ c ∧ c < sRow * outwN + outwN then
        buf (c - outwN) else buf c)

/-- The decoder state threaded through the per-scanline loop of crt_draw:
    the hsync lock, the four burst accumulators and the output buffer. -/
structure DrawSt where
  hsync : ℤ
  ccref : ℕ → ℤ
  out : ℕ → ℤ

/-- One iteration of the per-scanline loop of crt_draw (crt.c 878-1013,
    CRT_DO_BLOOM = 0): hsync search, burst recovery, carrier demodulation,
    scan/blend and row duplication; a line with beg ≥ outh is skipped
    entirely (its hsync search included). -/
def lineStep (inp : ℕ → ℤ) (vsv field outw outh bright huesn huecs satv contrast : ℤ)
    (line : ℕ) (st : DrawSt) : DrawSt :=
  let beg := cdiv (((line : ℤ) - 21 + 0) * outh) 240 + field
  let endv0 := cdiv (((line : ℤ) - 21 + 1) * outh) 240 + field
  if beg ≥ outh then st else
  let endv := if endv0 > outh then outh else endv0
  let ln := lnOf vsv line
  let ifin := hsyncAccum inp ln st.hsync 16 (-8) 0
  let hsync2 := posmod (ifin + st.hsync) 910
  let ccref2 := burstFold inp (ln + alignTo4 hsync2) 40 97 st.ccref
  let pos := avPos vsv hsync2 line
  let phasealign := (pos % 4).toNat
  let dci := ccref2 ((phasealign + 1) % 4) - ccref2 ((phasealign + 3) % 4)
  let dcq := ccref2 ((phasealign + 2) % 4) - ccref2 (phasealign % 4)
  let w0 := asr (dci * huecs - dcq * huesn) 4 * satv
  let w1 := asr (dcq * huecs + dci * huesn) 4 * satv
  let dl := demodList inp pos bright (waveFour w0 w1) 753 0 eqY eqI eqQ
  let dx := (cdiv (752 * 4096) outw).toNat
  let outwN := outw.toNat
  let buf1 := scanGo dl contrast (752 * 4096) dx (beg.toNat * outwN) outwN outwN 0 0 st.out
  let buf2 := dupRowsGo outwN (endv - (beg + 1)).toNat (beg.toNat + 1) buf1
  ⟨hsync2, ccref2, buf2⟩

/-- `for (line = CRT_TOP; line < CRT_BOT; line++)` of crt_draw. -/
def drawLines (inp : ℕ → ℤ) (vsv field outw outh bright huesn huecs satv contrast : ℤ) :
    (cnt line : ℕ) → DrawSt → DrawSt
  | 0, _, st => st
  | cnt + 1, line, st =>
    drawLines inp vsv field outw outh bright huesn huecs satv contrast cnt (line + 1)
      (lineStep inp vsv field outw outh bright huesn huecs satv contrast line st)

/-- crt_draw with the noise-mixed input buffer already supplied
    (crt.c 794-1014, CRT_DO_BLOOM = 0, CRT_DO_VSYNC = CRT_DO_HSYNC = 1):
    hue decomposition, vsync search, field/ratio offset, then the 240
    scanlines CRT_TOP..CRT_BOT-1. -/
def crtDrawWith (v : CRT) (inp : ℕ → ℤ) : CRT :=
  let bright := v.brightness - (BLACK_LEVEL + v.black_point)
  let hsc := crt_sincos14 (cdiv ((cmod v.hue 360 + 90) * 8192) 180)
  let huesn := asr hsc.1 11
  let huecs := asr hsc.2 11
  let vres := vsyncGo inp v.vsync 16 (-8) 0 0
  let vsv := vres.1
  let fieldFlag : ℤ := if 455 < vres.2.1 then 1 else 0
  let rat := asr (cdiv (v.outh * 65536) 240 + 32768) 16
  let field := fieldFlag * cdiv rat 2
  let stF := drawLines inp vsv field v.outw v.outh bright huesn huecs v.saturation
      v.contrast 240 21 ⟨v.hsync, fun _ => 0, v.out⟩
  { v with inp := inp, vsync := vsv, hsync := stF.hsync, out := stF.out }

/-- `crt_draw(v, noise)` from crt.c, with rn the static PRNG state at call
    entry (194 on the first call of a program run). -/
def crt_draw (v : CRT) (noise : ℤ) (rn : ℕ) : CRT :=
  crtDrawWith v (inpOf v.analog noise rn)

/-! ### Decoder lemmas: noise-free input, sync-scan misses -/

/-- With noise 0 and an all-zero analog buffer the noise/clamp loop yields
    the all-zero inp buffer (the PRNG term is multiplied by noise = 0). -/
theorem inpOf_zero (a : ℕ → ℤ) (rn : ℕ) (ha : ∀ i, a i = 0) :
    inpOf a 0 rn = fun _ => 0 := by
  funext i
  simp [inpOf, ha i, asr]

/-- On the all-zero input the vertical scan exhausts its 16 candidates:
    the fallthrough leaves line = POSMOD(0 - 8 + 15, 262) = 7 and j = 910. -/
theorem vsyncGo_zeroV : vsyncGo (fun _ => 0) 0 16 (-8) 0 0 = (7, 910, false) := by decide

/-- When the vertical scan finds no hit, the `line` local it leaves behind
    is the last candidate, POSMOD(v0 + i + (cnt - 1), 262). -/
theorem vsyncGo_nohit (inp : ℕ → ℤ) (v0 : ℤ) :
    ∀ (cnt : ℕ) (i la : ℤ) (ja : ℕ), 1 ≤ cnt →
    (vsyncGo inp v0 cnt i la ja).2.2 = false →
    (vsyncGo inp v0 cnt i la ja).1 = posmod (v0 + i + ((cnt - 1 : ℕ) : ℤ)) 262 := by
  intro cnt
  induction cnt with
  | zero => omega
  | succ k ih =>
    intro i la ja _ hfalse
    simp only [vsyncGo] at hfalse ⊢
    cases hm : vsyncLine inp ((posmod (v0 + i) 262).toNat * 910) 910 0 0 with
    | some j =>
      rw [hm] at hfalse
      simp at hfalse
    | none =>
      rw [hm] at hfalse
      dsimp only at hfalse ⊢
      rcases Nat.eq_zero_or_pos k with hk | hk
      · subst hk
        simp only [vsyncGo]
        have harg : v0 + i + ((0 + 1 - 1 : ℕ) : ℤ) = v0 + i := by norm_num
        rw [harg]
      · have := ih (i + 1) (posmod (v0 + i) 262) 910 hk hfalse
        rw [this]
        have harg : v0 + (i + 1) + ((k - 1 : ℕ) : ℤ) = v0 + i + ((k + 1 - 1 : ℕ) : ℤ) := by
          push_cast
          omega
        rw [harg]

/-- The concrete decode input for the counterexamples: all-zero analog
    buffer (so both sync searches miss with noise 0), hsync = vsync = 0,
    default user settings (hue 0, contrast 179, saturation 18), output
    1 x 482, and a sentinel prior color 0xFFFFFF at out[2]. -/
def V0 : CRT := ⟨fun _ => 0, fun _ => 0, 0, 0, 0, 0, 179, 18, 0, 100, 1, 482,
  fun i => if i = 2 then 0xFFFFFF else 0⟩

/-- Claim C1 (as stated, refuted): decoding the all-zero signal with noise 0
    makes both integrated-sync searches miss everywhere, yet `crt_draw`
    stores vsync = 7 ≠ 0 (the last candidate line of the failed scan), and a
    processed line's missed horizontal search (which returns i = 8) moves
    the stored hsync to 8 ≠ 0.  "Sync not found" does not keep the previous
    lock. -/
theorem c1_counterexample :
    (vsyncGo (inpOf V0.analog 0 194) V0.vsync 16 (-8) 0 0).2.2 = false ∧
    V0.vsync = 0 ∧ (crt_draw V0 0 194).vsync = 7 ∧
    (crt_draw V0 0 194).vsync ≠ V0.vsync ∧
    hsyncAccum (fun _ => 0) (lnOf 7 21) 0 16 (-8) 0 = 8 ∧
    (lineStep (fun _ => 0) 7 1 1 482 (-7) 16 0 18 179 21 ⟨0, fun _ => 0, fun _ => 0⟩).hsync = 8 ∧
    (8 : ℤ) ≠ 0 := by
  have hz : inpOf V0.analog 0 194 = fun _ => 0 := inpOf_zero V0.analog 194 (fun _ => rfl)
  have hc : crt_draw V0 0 194 = crtDrawWith V0 (fun _ => 0) := by
    unfold crt_draw
    rw [hz]
  have hv0 : V0.vsync = (0 : ℤ) := rfl
  have h7 : (crt_draw V0 0 194).vsync = 7 := by
    rw [hc]
    simp only [crtDrawWith]
    rw [hv0, vsyncGo_zeroV]
  refine ⟨?_, rfl, h7, ?_, by decide, by decide, by decide⟩
  · rw [hz, hv0, vsyncGo_zeroV]
  · rw [h7, hv0]
    decide

/-- Claim C1 (amended): when the vertical scan misses every candidate,
    `crt_draw` stores vsync = POSMOD(old vsync + 7, 262), the last candidate
    line, not the old value; and a processed line whose horizontal window is
    exhausted (the search returns 8) stores
    hsync = POSMOD(old hsync + 8, 910). -/
theorem c1_sync_giveup :
    (∀ (v : CRT) (noise : ℤ) (rn : ℕ),
       (vsyncGo (inpOf v.analog noise rn) v.vsync 16 (-8) 0 0).2.2 = false →
       (crt_draw v noise rn).vsync = posmod (v.vsync + 7) 262) ∧
    (∀ (inp : ℕ → ℤ) (vsv field outw outh bright huesn huecs satv contrast : ℤ)
       (line : ℕ) (st : DrawSt),
       ¬ (cdiv (((line : ℤ) - 21 + 0) * outh) 240 + field ≥ outh) →
       hsyncAccum inp (lnOf vsv line) st.hsync 16 (-8) 0 = 8 →
       (lineStep inp vsv field outw outh bright huesn huecs satv contrast line st).hsync
         = posmod (st.hsync + 8) 910) := by
  constructor
  · intro v noise rn hfalse
    have he : (crt_draw v noise rn).vsync =
        (vsyncGo (inpOf v.analog noise rn) v.vsync 16 (-8) 0 0).1 := rfl
    rw [he, vsyncGo_nohit _ _ 16 (-8) 0 0 (by norm_num) hfalse]
    have harg : v.vsync + (-8) + ((16 - 1 : ℕ) : ℤ) = v.vsync + 7 := by
      push_cast
      ring
    rw [harg]
  · intro inp vsv field outw outh bright huesn huecs satv contrast line st hp h8
    simp only [lineStep]
    rw [if_neg hp, h8]
    dsimp only
    rw [posmod_eq_emod _ _ (by norm_num), posmod_eq_emod _ _ (by norm_num)]
    omega

/-- Witness for `c1_sync_giveup`: the all-zero decode misses both searches;
    applying the theorem gives vsync = POSMOD(0 + 7, 262) and, for line 21
    with hsync 0, hsync = POSMOD(0 + 8, 910). -/
theorem c1_sync_giveup_witness :
    ((vsyncGo (inpOf V0.analog 0 194) V0.vsync 16 (-8) 0 0).2.2 = false ∧
     (crt_draw V0 0 194).vsync = posmod (V0.vsync + 7) 262) ∧
    (¬ (cdiv ((((21 : ℕ) : ℤ) - 21 + 0) * 482) 240 + 1 ≥ 482) ∧
     hsyncAccum (fun _ => 0) (lnOf 7 21) 0 16 (-8) 0 = 8 ∧
     (lineStep (fun _ => 0) 7 1 1 482 (-7) 16 0 18 179 21 ⟨0, fun _ => 0, fun _ => 0⟩).hsync
       = posmod (0 + 8) 910) := by
  have hz : inpOf V0.analog 0 194 = fun _ => 0 := inpOf_zero V0.analog 194 (fun _ => rfl)
  have hv0 : V0.vsync = (0 : ℤ) := rfl
  have hfalse : (vsyncGo (inpOf V0.analog 0 194) V0.vsync 16 (-8) 0 0).2.2 = false := by
    rw [hz, hv0, vsyncGo_zeroV]
  refine ⟨⟨hfalse, c1_sync_giveup.1 V0 0 194 hfalse⟩, by decide, by decide, ?_⟩
  exact c1_sync_giveup.2 (fun _ => 0) 7 1 1 482 (-7) 16 0 18 179 21
    ⟨0, fun _ => 0, fun _ => 0⟩ (by decide) (by decide)

/-! ### Claim C5, amended: the burst accumulator update -/

/-- The ten sample positions of phase bucket k (= i & 3) within the burst
    window [CB_BEG, CB_BEG + 40); CB_BEG = 97 ≡ 1 (mod 4), so bucket 1
    starts at 97, bucket 2 at 98, bucket 3 at 99 and bucket 0 at 100. -/
def burstBucket (k : ℕ) : List ℕ :=
  (List.range 10).map (fun m => (if k % 4 = 0 then 100 else 96 + k % 4) + 4 * m)

/-- Claim C5 (amended): over one line's burst window, each phase bucket's
    accumulator is folded through its ten samples in position order with the
    update `ccref ↦ ccref * 127 / 128 + sample` (`ccrefStep`): the previous
    value leaks by the factor 127/128 (truncating division) and the incoming
    sample is added at full weight — not the spec's
    `(127*ccref + sample) / 128` (see `c5_counterexample`). -/
theorem c5_ccref_leaky (inp : ℕ → ℤ) (base : ℤ) (cc : ℕ → ℤ) (k : Fin 4) :
    burstFold inp base 40 97 cc k.val =
      ((burstBucket k.val).map (fun i => readS inp (base + (i : ℤ)))).foldl
        ccrefStep (cc k.val) := by
  fin_cases k <;> rfl

/-! ### Claim C4: the scan/blend loop and the row-duplication loop -/

/-- The scan/blend loop never touches buffer cells below its base offset. -/
theorem scanGo_lt (dl : List (ℤ × ℤ × ℤ)) (contrast : ℤ) (scanR dx cL0 outwN : ℕ) :
    ∀ (fuel pos k : ℕ) (buf : ℕ → ℤ) (c : ℕ), c < cL0 →
    scanGo dl contrast scanR dx cL0 outwN fuel pos k buf c = buf c := by
  intro fuel
  induction fuel with
  | zero => intro pos k buf c _; rfl
  | succ n ih =>
    intro pos k buf c hc
    simp only [scanGo]
    split_ifs with hcond
    · rw [ih (pos + dx) (k + 1) _ c hc]
      unfold updN
      rw [if_neg (by omega)]
    · rfl

/-- The duplication loop never touches cells below its first row. -/
theorem dupRowsGo_lt (outwN : ℕ) :
    ∀ (cnt sRow : ℕ) (buf : ℕ → ℤ) (c : ℕ), c < sRow * outwN →
    dupRowsGo outwN cnt sRow buf c = buf c := by
  intro cnt
  induction cnt with
  | zero => intro sRow buf c _; rfl
  | succ n ih =>
    intro sRow buf c hc
    simp only [dupRowsGo]
    have hle : (sRow + 1) * outwN = sRow * outwN + outwN := by ring
    rw [ih (sRow + 1) _ c (by omega)]
    rw [if_neg (by omega)]

/-- Every cell the scan/blend loop leaves is either untouched or the 50/50
    phosphor blend of the pixel demodulated at its scan position with the
    prior value of that same cell. -/
theorem scanGo_or (dl : List (ℤ × ℤ × ℤ)) (contrast : ℤ) (scanR dx cL0 outwN : ℕ) :
    ∀ (fuel pos k : ℕ) (buf : ℕ → ℤ) (c : ℕ),
    scanGo dl contrast scanR dx cL0 outwN fuel pos k buf c = buf c ∨
    ∃ j : ℕ, k ≤ j ∧ j < outwN ∧ c = cL0 + j ∧
      scanGo dl contrast scanR dx cL0 outwN fuel pos k buf c =
        blendF (pixelRGB dl contrast (pos + (j - k) * dx)) (buf c) := by
  intro fuel
  induction fuel with
  | zero => intro pos k buf c; left; rfl
  | succ n ih =>
    intro pos k buf c
    simp only [scanGo]
    split_ifs with hcond
    · rcases ih (pos + dx) (k + 1)
        (updN buf (cL0 + k) (blendF (pixelRGB dl contrast pos) (buf (cL0 + k)))) c with
        h | ⟨j, hj1, hj2, hj3, hj4⟩
      · rw [h]
        unfold updN
        split_ifs with he
        · right
          refine ⟨k, le_refl k, hcond.2, he, ?_⟩
          subst he
          simp
        · left; rfl
      · right
        refine ⟨j, by omega, hj2, hj3, ?_⟩
        rw [hj4]
        have harith : pos + dx + (j - (k + 1)) * dx = pos + (j - k) * dx := by
          have hjk : j - k = (j - (k + 1)) + 1 := by omega
          rw [hjk]; ring
        rw [harith]
        unfold updN
        rw [if_neg (by omega)]
    · left; rfl

/-- Every cell of a row the duplication loop covers ends as a verbatim copy
    of the row just above the duplicated band. -/
theorem dupRowsGo_vals (outwN : ℕ) :
    ∀ (cnt sRow : ℕ) (buf : ℕ → ℤ) (r x : ℕ), 1 ≤ sRow → x < outwN →
    sRow ≤ r → r < sRow + cnt →
    dupRowsGo outwN cnt sRow buf (r * outwN + x) = buf ((sRow - 1) * outwN + x) := by
  intro cnt
  induction cnt with
  | zero => intro sRow buf r x h1 hx h2 h3; omega
  | succ n ih =>
    intro sRow buf r x h1 hx h2 h3
    simp only [dupRowsGo]
    have hexp : sRow * outwN = (sRow - 1) * outwN + outwN := by
      cases sRow with
      | zero => omega
      | succ m =>
        have hm : m + 1 - 1 = m := rfl
        rw [hm]
        ring
    have hr1 : (r + 1) * outwN = r * outwN + outwN := by ring
    rcases Nat.lt_or_ge r (sRow + 1) with hr | hr
    · have hreq : r = sRow := by omega
      subst hreq
      rw [dupRowsGo_lt outwN n (r + 1) _ (r * outwN + x) (by omega)]
      rw [if_pos (by constructor <;> omega)]
      have hidx : r * outwN + x - outwN = (r - 1) * outwN + x := by omega
      rw [hidx]
    · rw [ih (sRow + 1) _ r x (by omega) hx hr (by omega)]
      have hs1 : sRow + 1 - 1 = sRow := rfl
      rw [hs1]
      rw [if_pos (by constructor <;> omega)]
      have hidx : sRow * outwN + x - outwN = (sRow - 1) * outwN + x := by omega
      rw [hidx]

/-- One scanline leaves every cell below its first output row unchanged. -/
theorem lineStep_out_lt (inp : ℕ → ℤ)
    (vsv field outw outh bright huesn huecs satv contrast : ℤ)
    (line : ℕ) (st : DrawSt) (c : ℕ)
    (hc : c < (cdiv (((line : ℤ) - 21 + 0) * outh) 240 + field).toNat * outw.toNat) :
    (lineStep inp vsv field outw outh bright huesn huecs satv contrast line st).out c
      = st.out c := by
  simp only [lineStep]
  by_cases hskip : cdiv (((line : ℤ) - 21 + 0) * outh) 240 + field ≥ outh
  · rw [if_pos hskip]
  · rw [if_neg hskip]
    dsimp only
    set begN := (cdiv (((line : ℤ) - 21 + 0) * outh) 240 + field).toNat with hbegN
    have h1 : c < (begN + 1) * outw.toNat := by
      have : (begN + 1) * outw.toNat = begN * outw.toNat + outw.toNat := by ring
      omega
    rw [dupRowsGo_lt _ _ _ _ c h1, scanGo_lt _ _ _ _ _ _ _ _ _ _ c hc]

/-- In the V0 configuration (outw = 1, outh = 482, field = 1) the lines
    from 22 on write only rows ≥ 3, so out[2] keeps the value line 21
    left there. -/
theorem drawLines_out2_const (inp : ℕ → ℤ) (bright huesn huecs satv contrast : ℤ) :
    ∀ (cnt line : ℕ) (st : DrawSt), 22 ≤ line →
    (drawLines inp 7 1 1 482 bright huesn huecs satv contrast cnt line st).out 2
      = st.out 2 := by
  intro cnt
  induction cnt with
  | zero => intro line st _; rfl
  | succ n ih =>
    intro line st hl
    simp only [drawLines]
    rw [ih (line + 1) _ (by omega)]
    apply lineStep_out_lt
    have hnn : (0 : ℤ) ≤ ((line : ℤ) - 21 + 0) * 482 := by
      have : (1 : ℤ) ≤ (line : ℤ) - 21 + 0 := by omega
      nlinarith
    have h482 : (482 : ℤ) ≤ ((line : ℤ) - 21 + 0) * 482 := by
      have : (1 : ℤ) ≤ (line : ℤ) - 21 + 0 := by omega
      nlinarith
    have hdiv : (2 : ℤ) ≤ cdiv (((line : ℤ) - 21 + 0) * 482) 240 := by
      unfold cdiv
      rw [Int.tdiv_eq_ediv hnn (by norm_num)]
      rw [Int.le_ediv_iff_mul_le (by norm_num)]
      omega
    rw [show ((1 : ℤ)).toNat = 1 from rfl, Nat.mul_one]
    omega

/-- A nonnegative int stays nonnegative under the phosphor mask. -/
theorem land_mask_nonneg (a : ℤ) (h : 0 ≤ a) : 0 ≤ Int.land a 16711423 := by
  lift a to ℕ using h
  rw [show Int.land (a : ℤ) 16711423 = ((a &&& 16711423 : ℕ) : ℤ) from rfl]
  positivity

/-- The all-zero decode of V0 in terms of the pre-supplied input buffer. -/
theorem V0_draw_zero : crt_draw V0 0 194 = crtDrawWith V0 (fun _ => 0) := by
  unfold crt_draw
  rw [inpOf_zero V0.analog 194 (fun _ => rfl)]

/-- Unfolding the V0 decode to the scanline loop with its literal
    parameters: vsync scan misses at line 7 with j = 910, so field = 1,
    bright = -7, huesn = 16, huecs = 0. -/
theorem V0_out_bridge : (crtDrawWith V0 (fun _ => 0)).out =
    (drawLines (fun _ => 0) 7 1 1 482 (-7) 16 0 18 179 240 21
      ⟨0, fun _ => 0, V0.out⟩).out := by
  simp only [crtDrawWith]
  rw [show V0.vsync = (0 : ℤ) from rfl, vsyncGo_zeroV]
  rfl

/-- Line 21 of the V0 decode: scan row is all zero, the demodulated pixel
    is black, and its blend with the zero prior of out[1] is duplicated
    into out[2], giving 0. -/
theorem V0_line21_out : (lineStep (fun _ => 0) 7 1 1 482 (-7) 16 0 18 179 21
    ⟨0, fun _ => 0, V0.out⟩).out 2 = 0 := by decide

/-- The V0 decode leaves 0 at out[2]. -/
theorem V0_out2 : (crt_draw V0 0 194).out 2 = 0 := by
  rw [V0_draw_zero]
  rw [show (crtDrawWith V0 (fun _ => 0)).out 2 =
    (drawLines (fun _ => 0) 7 1 1 482 (-7) 16 0 18 179 240 21
      ⟨0, fun _ => 0, V0.out⟩).out 2 from congrFun V0_out_bridge 2]
  rw [show drawLines (fun _ => 0) 7 1 1 482 (-7) 16 0 18 179 240 21
      ⟨0, fun _ => 0, V0.out⟩ =
    drawLines (fun _ => 0) 7 1 1 482 (-7) 16 0 18 179 239 22
      (lineStep (fun _ => 0) 7 1 1 482 (-7) 16 0 18 179 21
        ⟨0, fun _ => 0, V0.out⟩) from rfl]
  rw [drawLines_out2_const _ _ _ _ _ _ 239 22 _ (by norm_num), V0_line21_out]

/-- Claim C4 (as stated, refuted): in the V0 decode, row 2 of the output is
    written by the row-duplication memcpy, not by the scan/blend loop: its
    final value 0 is not `((aa & 0xFEFEFF) >> 1) + ((bb & 0xFEFEFF) >> 1)`
    for any 24-bit color aa against the prior value bb = 0xFFFFFF stored at
    that same coordinate — any such blend is at least 0x7F7F7F. -/
theorem c4_counterexample :
    V0.out 2 = 16777215 ∧
    (crt_draw V0 0 194).out 2 = 0 ∧
    (crt_draw V0 0 194).out 2 ≠ V0.out 2 ∧
    ¬ ∃ aa : ℤ, 0 ≤ aa ∧ aa < 16777216 ∧
        (crt_draw V0 0 194).out 2 = blendF aa (V0.out 2) := by
  refine ⟨rfl, V0_out2, ?_, ?_⟩
  · rw [V0_out2]
    decide
  · rintro ⟨aa, ha0, _, ha2⟩
    rw [V0_out2] at ha2
    unfold blendF at ha2
    rw [show V0.out 2 = (16777215 : ℤ) from rfl] at ha2
    have hmk : asr (Int.land (16777215 : ℤ) 16711423) 1 = 8355711 := by decide
    rw [hmk] at ha2
    have hl0 : 0 ≤ Int.land aa 16711423 := land_mask_nonneg aa ha0
    have hge : 0 ≤ asr (Int.land aa 16711423) 1 := by
      unfold asr
      exact Int.ediv_nonneg hl0 (by norm_num)
    omega

/-- Claim C4 (amended): every cell the scan/blend loop writes receives the
    50/50 phosphor blend `((aa & 0xFEFEFF) >> 1) + ((bb & 0xFEFEFF) >> 1)`
    of the pixel `aa` demodulated at that cell's scan position with the
    prior value `bb` of that same cell (first conjunct); the additional rows
    written by the duplication loop are instead verbatim copies of the row
    above the duplicated band (second conjunct), so those cells' prior
    values never enter a blend. -/
theorem c4_phosphor_blend :
    (∀ (dl : List (ℤ × ℤ × ℤ)) (contrast : ℤ) (scanR dx cL0 outwN fuel pos k : ℕ)
       (buf : ℕ → ℤ) (c : ℕ),
       scanGo dl contrast scanR dx cL0 outwN fuel pos k buf c = buf c ∨
       ∃ j : ℕ, k ≤ j ∧ j < outwN ∧ c = cL0 + j ∧
         scanGo dl contrast scanR dx cL0 outwN fuel pos k buf c =
           blendF (pixelRGB dl contrast (pos + (j - k) * dx)) (buf c)) ∧
    (∀ (outwN cnt sRow : ℕ) (buf : ℕ → ℤ) (r x : ℕ), 1 ≤ sRow → x < outwN →
       sRow ≤ r → r < sRow + cnt →
       dupRowsGo outwN cnt sRow buf (r * outwN + x) = buf ((sRow - 1) * outwN + x)) :=
  ⟨fun dl contrast scanR dx cL0 outwN fuel pos k buf c =>
     scanGo_or dl contrast scanR dx cL0 outwN fuel pos k buf c,
   fun outwN cnt sRow buf r x h1 hx h2 h3 =>
     dupRowsGo_vals outwN cnt sRow buf r x h1 hx h2 h3⟩

/-- Witness for `c4_phosphor_blend`: one duplicated row (row 1 of a
    one-cell-wide buffer) is a copy of row 0. -/
theorem c4_phosphor_blend_witness :
    1 ≤ 1 ∧ 0 < 1 ∧ 1 ≤ 1 ∧ 1 < 1 + 1 ∧
    dupRowsGo 1 1 1 (fun i => (i : ℤ)) (1 * 1 + 0) = (fun i => (i : ℤ)) ((1 - 1) * 1 + 0) :=
  ⟨by decide, by decide, by decide, by decide,
   c4_phosphor_blend.2 1 1 1 (fun i => (i : ℤ)) 1 0 (by decide) (by decide)
     (by decide) (by decide)⟩

/-! ### Claim C8: determinism of the decode -/

/-- Claim C8: the decode is a pure function of the engine state it reads —
    analog buffer, hsync/vsync locks, user settings, prior output — plus the
    noise argument and the PRNG entry state; the scratch `inp` buffer does
    not influence the result (it is fully overwritten).  Two calls from
    states that agree on all read fields produce identical results. -/
theorem c8_determinism (v1 v2 : CRT) (noise : ℤ) (rn : ℕ)
    (ha : v1.analog = v2.analog) (hh : v1.hsync = v2.hsync) (hv : v1.vsync = v2.vsync)
    (hhue : v1.hue = v2.hue) (hbr : v1.brightness = v2.brightness)
    (hco : v1.contrast = v2.contrast) (hsa : v1.saturation = v2.saturation)
    (hbp : v1.black_point = v2.black_point) (hwp : v1.white_point = v2.white_point)
    (how : v1.outw = v2.outw) (hoh : v1.outh = v2.outh) (hout : v1.out = v2.out) :
    crt_draw v1 noise rn = crt_draw v2 noise rn := by
  obtain ⟨a1, i1, hs1, vs1, hu1, br1, co1, sa1, bp1, wp1, ow1, oh1, o1⟩ := v1
  obtain ⟨a2, i2, hs2, vs2, hu2, br2, co2, sa2, bp2, wp2, ow2, oh2, o2⟩ := v2
  dsimp only at ha hh hv hhue hbr hco hsa hbp hwp how hoh hout
  subst ha hh hv hhue hbr hco hsa hbp hwp how hoh hout
  rfl

/-- Two states that differ only in the scratch inp buffer. -/
def V8a : CRT := ⟨fun _ => 0, fun _ => 1, 3, 5, 10, 2, 179, 18, 0, 100, 4, 4, fun _ => 7⟩

/-- Same as `V8a` except for the inp field. -/
def V8b : CRT := ⟨fun _ => 0, fun _ => 2, 3, 5, 10, 2, 179, 18, 0, 100, 4, 4, fun _ => 7⟩

/-- Witness for `c8_determinism` on two states differing in inp only. -/
theorem c8_determinism_witness : crt_draw V8a 1 194 = crt_draw V8b 1 194 :=
  c8_determinism V8a V8b 1 194 rfl rfl rfl rfl rfl rfl rfl rfl rfl rfl rfl rfl

/-! ### Claim C9: bounds of the decoder's signal reads -/

/-- A signal read succeeds exactly on indices inside the buffer. -/
theorem sigRead_isSome (inp : ℕ → ℤ) (idx : ℤ) :
    (sigRead inp idx).isSome = true ↔ 0 ≤ idx ∧ idx < 238420 := by
  have hC : (CRT_INPUT_SIZE : ℤ) = 238420 := by decide
  unfold sigRead
  rw [hC]
  split_ifs with h
  · simp [h]
  · simp [h]

/-- Claim C9 (as stated, refuted): with hsync = 882 ∈ [0, 910) and
    vsync = 240 ∈ [0, 262), line 21 maps to signal row 261 and the
    horizontal-sync search's read at window offset i = 7 touches index
    261*910 + 882 + 21 + 7 = 238420 = CRT_INPUT_SIZE, out of bounds; the
    final conjunct shows the all-zero signal really drives the search to
    that offset (no earlier break). -/
theorem c9_counterexample :
    (0 : ℤ) ≤ 882 ∧ (882 : ℤ) < 910 ∧ (0 : ℤ) ≤ 240 ∧ (240 : ℤ) < 262 ∧
    hsReadIdx (lnOf 240 21) 882 7 = 238420 ∧
    sigRead (fun _ => 0) (hsReadIdx (lnOf 240 21) 882 7) = none ∧
    hsyncAccum (fun _ => 0) (lnOf 240 21) 882 16 (-8) 0 = 8 := by decide

/-- Claim C9 (amended): if the vsync lock is 0 or at least 241 (so that no
    processed line maps to signal row 261), then for every hsync lock in
    [0, 910), every updated lock hsync2 in [0, 910), every processed line in
    [21, 261) and every loop offset, the three read families of the
    per-scanline loop — horizontal-sync search (offsets -8..7 around
    SYNC_BEG), burst recovery (CB_BEG..CB_BEG+39) and active-video
    demodulation (0..AV_LEN-1) — stay inside [0, CRT_INPUT_SIZE). -/
theorem c9_reads_in_bounds (inp : ℕ → ℤ) (hsync vsync hsync2 : ℤ) (line i2 i3 : ℕ) (i1 : ℤ)
    (hh : 0 ≤ hsync ∧ hsync < 910) (hh2 : 0 ≤ hsync2 ∧ hsync2 < 910)
    (hv : vsync = 0 ∨ (241 ≤ vsync ∧ vsync ≤ 261))
    (hl : 21 ≤ line ∧ line < 261) (h1 : -8 ≤ i1 ∧ i1 ≤ 7)
    (h2 : 97 ≤ i2 ∧ i2 < 137) (h3 : i3 < 753) :
    (sigRead inp (hsReadIdx (lnOf vsync line) hsync i1)).isSome = true ∧
    (sigRead inp (burstReadIdx (lnOf vsync line) hsync2 i2)).isSome = true ∧
    (sigRead inp (avReadIdx (avPos vsync hsync2 line) i3)).isSome = true := by
  have hy : 0 ≤ posmod ((line : ℤ) + vsync) 262 ∧ posmod ((line : ℤ) + vsync) 262 ≤ 260 := by
    rw [posmod_eq_emod _ _ (by norm_num)]
    omega
  have hx : 0 ≤ posmod (156 + hsync2) 910 ∧ posmod (156 + hsync2) 910 < 910 :=
    posmod_bounds _ _ (by norm_num)
  refine ⟨?_, ?_, ?_⟩ <;> rw [sigRead_isSome]
  · unfold hsReadIdx lnOf
    omega
  · unfold burstReadIdx lnOf alignTo4
    omega
  · unfold avReadIdx avPos
    omega

/-- Witness for `c9_reads_in_bounds` at hsync = 0, vsync = 0, line 21. -/
theorem c9_reads_in_bounds_witness :
    ((0 : ℤ) ≤ 0 ∧ (0 : ℤ) < 910) ∧ ((0 : ℤ) ≤ 0 ∧ (0 : ℤ) < 910) ∧
    ((0 : ℤ) = 0 ∨ (241 ≤ (0 : ℤ) ∧ (0 : ℤ) ≤ 261)) ∧
    (21 ≤ (21 : ℕ) ∧ (21 : ℕ) < 261) ∧ ((-8 : ℤ) ≤ 0 ∧ (0 : ℤ) ≤ 7) ∧
    (97 ≤ (97 : ℕ) ∧ (97 : ℕ) < 137) ∧ ((0 : ℕ) < 753) ∧
    ((sigRead (fun _ => 0) (hsReadIdx (lnOf 0 21) 0 0)).isSome = true ∧
     (sigRead (fun _ => 0) (burstReadIdx (lnOf 0 21) 0 97)).isSome = true ∧
     (sigRead (fun _ => 0) (avReadIdx (avPos 0 0 21) 0)).isSome = true) :=
  ⟨by decide, by decide, by decide, by decide, by decide, by decide, by decide,
   c9_reads_in_bounds (fun _ => 0) 0 0 0 21 97 0 0 (by decide) (by decide)
     (by decide) (by decide) (by decide) (by decide) (by decide)⟩
